import Mathlib

/-
Verification of the PGlite HTTP server (src/src/index.ts): a shallow
embedding of the request validators, route handlers, export/import
routines and startup sequence, with the embedded database engine treated
as an opaque collaborator (an oracle for generic SQL, and an explicit
relational model where a claim is about the semantics of the fixed
statements a handler issues).
-/

/-- SQL values as the engine delivers and accepts them: text, integral
numbers, booleans and NULL (the scalar types the routes exercise). -/
inductive Val where
  | vstr (s : String)
  | vint (n : Int)
  | vbool (b : Bool)
  | vnull
deriving DecidableEq

/-- JSON values as the body parser delivers them to a handler (numbers
restricted to the integers the claims exercise). -/
inductive JVal where
  | jnull
  | jbool (b : Bool)
  | jnum (n : Int)
  | jstr (s : String)
  | jarr (elems : List JVal)
  | jobj (fields : List (String × JVal))

/-- First binding of a key in a JSON object. -/
def lookupField (fields : List (String × JVal)) (key : String) : Option JVal :=
  match fields with
  | [] => none
  | (k, v) :: rest => if k = key then some v else lookupField rest key

/-- Request shape for POST /query. -/
structure QueryReq where
  query : String
  params : List JVal

/-- The zod schema of POST /query: query is a string of length at least 1,
params an optional array of arbitrary values defaulting to empty. -/
def querySchema (body : JVal) : Option QueryReq :=
  match body with
  | .jobj fields =>
    match lookupField fields "query" with
    | some (.jstr q) =>
      if q.length ≥ 1 then
        match lookupField fields "params" with
        | none => some { query := q, params := [] }
        | some (.jarr ps) => some { query := q, params := ps }
        | some _ => none
      else none
    | _ => none
  | _ => none

/-- One entry of a POST /transaction batch. -/
structure TxItem where
  query : String
  params : List JVal

/-- The zod schema of one transaction entry: query is any string (no
minimum length), params an optional array defaulting to empty. -/
def txItemSchema (j : JVal) : Option TxItem :=
  match j with
  | .jobj fields =>
    match lookupField fields "query" with
    | some (.jstr q) =>
      match lookupField fields "params" with
      | none => some { query := q, params := [] }
      | some (.jarr ps) => some { query := q, params := ps }
      | some _ => none
    | _ => none
  | _ => none

/-- Request shape for POST /transaction. -/
structure TxReq where
  queries : List TxItem

/-- The zod schema of POST /transaction: queries is an array of entries
(z.array with no nonempty constraint). -/
def transactionSchema (body : JVal) : Option TxReq :=
  match body with
  | .jobj fields =>
    match lookupField fields "queries" with
    | some (.jarr qs) => (qs.mapM txItemSchema).map TxReq.mk
    | _ => none
  | _ => none

/-- Request shape for POST /import. -/
structure ImportReq where
  sql : String

/-- The zod schema of POST /import: sql is a string of length at least 1. -/
def importSchema (body : JVal) : Option ImportReq :=
  match body with
  | .jobj fields =>
    match lookupField fields "sql" with
    | some (.jstr s) => if s.length ≥ 1 then some { sql := s } else none
    | _ => none
  | _ => none

/-- Split an email at its only @: the local part and the domain. -/
def emailSplit : List Char → Option (List Char × List Char)
  | [] => none
  | c :: cs =>
    if c = '@' then (if cs.contains '@' then none else some ([], cs))
    else
      match emailSplit cs with
      | some (lp, dp) => some (c :: lp, dp)
      | none => none

/-- Modelled from the spec: the syntactically-valid-email check of the
validation library (a vendored dependency), approximated as a nonempty
local part and a nonempty domain around exactly one @. -/
def emailValid (s : String) : Bool :=
  match emailSplit s.data with
  | some (lp, dp) => !lp.isEmpty && !dp.isEmpty
  | none => false

/-- Request shape for POST /users. -/
structure CreateUserReq where
  name : String
  email : String

/-- The zod schema of POST /users: name nonempty, email a valid address. -/
def createUserSchema (body : JVal) : Option CreateUserReq :=
  match body with
  | .jobj fields =>
    match lookupField fields "name", lookupField fields "email" with
    | some (.jstr n), some (.jstr e) =>
      if n.length ≥ 1 && emailValid e then some { name := n, email := e } else none
    | _, _ => none
  | _ => none

/-- Request shape for PUT /users/:id (both fields optional). -/
structure UpdateUserReq where
  name : Option String
  email : Option String

/-- An optional string field of the update schema: absent is accepted,
present must be a string passing the check. -/
def optStringField (fields : List (String × JVal)) (key : String)
    (check : String → Bool) : Option (Option String) :=
  match lookupField fields key with
  | none => some none
  | some (.jstr s) => if check s then some (some s) else none
  | some _ => none

/-- The zod schema of PUT /users/:id: name and email both optional, with
the same per-field checks as creation. -/
def updateUserSchema (body : JVal) : Option UpdateUserReq :=
  match body with
  | .jobj fields =>
    match optStringField fields "name" (fun s => s.length ≥ 1),
        optStringField fields "email" emailValid with
    | some n, some e => some { name := n, email := e }
    | _, _ => none
  | _ => none

/-- The single-quote character. -/
def qc : Char := '\''

/-- Character-level global replace of a single quote by two (the export
routine's v.replace of every quote with a doubled one). -/
def escQchars : List Char → List Char
  | [] => []
  | c :: cs => if c = qc then qc :: qc :: escQchars cs else c :: escQchars cs

/-- String-level quote doubling used by the export serializer. -/
def escQ (s : String) : String := ⟨escQchars s.data⟩

/-- Decimal digit character. -/
def digitChr : Nat → Char
  | 0 => '0' | 1 => '1' | 2 => '2' | 3 => '3' | 4 => '4'
  | 5 => '5' | 6 => '6' | 7 => '7' | 8 => '8' | _ => '9'

/-- Decimal rendering of a natural number, most significant digit first. -/
def natCharsAux (n : Nat) (acc : List Char) : List Char :=
  if n < 10 then digitChr n :: acc
  else natCharsAux (n / 10) (digitChr (n % 10) :: acc)
termination_by n
decreasing_by
  exact Nat.div_lt_self (by omega) (by omega)

/-- Decimal digits of a natural number. -/
def natChars (n : Nat) : List Char := natCharsAux n []

/-- Decimal rendering of an integer (the default textual form a number
takes when spliced into the dump). -/
def intStr (n : Int) : String :=
  if n < 0 then ⟨'-' :: natChars n.natAbs⟩ else ⟨natChars n.toNat⟩

/-- SQL literal of one value, exactly as the export route builds it:
strings are wrapped in single quotes with embedded quotes doubled, every
other value is spliced in its default textual form. -/
def sqlLit : Val → String
  | .vstr s => "'" ++ escQ s ++ "'"
  | .vint n => intStr n
  | .vbool b => if b then "true" else "false"
  | .vnull => "null"

/-- Join with a separator (the values.join of the export route). -/
def joinSep (sep : String) : List String → String
  | [] => ""
  | [s] => s
  | s :: rest => s ++ sep ++ joinSep sep rest

/-- Concatenation of a list of strings. -/
def strJoin : List String → String
  | [] => ""
  | s :: rest => s ++ strJoin rest

/-- One INSERT statement of the dump, serializing one row's values. -/
def rowInsert (tablename : String) (vals : List Val) : String :=
  "INSERT INTO " ++ tablename ++ " VALUES (" ++ joinSep ", " (vals.map sqlLit) ++ ");\n"

/-- The data block the export route emits for one table: one INSERT per
row and a blank line, or nothing when the table is empty. -/
def dataSection (tablename : String) (rows : List (List Val)) : String :=
  if rows.isEmpty then "" else strJoin (rows.map (rowInsert tablename)) ++ "\n"

/-- One column of a table as the catalog describes it. -/
structure Column where
  name : String
  dataType : String
  notNull : Bool
deriving DecidableEq

/-- One column entry of the synthesized CREATE TABLE statement. -/
def colDef (c : Column) : String :=
  c.name ++ " " ++ c.dataType ++ (if c.notNull then " NOT NULL" else "")

/-- A table of the store: its catalog entry and its rows. -/
structure Table where
  name : String
  cols : List Column
  rows : List (List Val)
deriving DecidableEq

/-- Modelled from the spec: the CREATE TABLE statement the export route has
the engine synthesize from the catalog (per-column name, type, nullability,
comma-joined). A table with no columns yields no catalog row, and splicing
the absent result renders as the text undefined. -/
def createStmtFor (t : Table) : String :=
  if t.cols.isEmpty then "undefined"
  else "CREATE TABLE " ++ t.name ++ " (" ++ joinSep ", " (t.cols.map colDef) ++ ");"

/-- The dump section of one table: CREATE TABLE, a blank line, the data. -/
def tableDump (t : Table) : String :=
  createStmtFor t ++ "\n\n" ++ dataSection t.name t.rows

/-- The full SQL dump of GET /export: header comments (ts is the generation
timestamp text), then every table's section in catalog order. -/
def exportDump (store : List Table) (ts : String) : String :=
  "-- PGlite Database Export\n" ++ ("-- Generated: " ++ ts ++ "\n\n")
    ++ strJoin (store.map tableDump)

/-- A result row the engine returns: column name to value. -/
abbrev DbRow := List (String × Val)

/-- What the engine returns for a successful query. -/
structure QueryRes where
  rows : List DbRow
  fields : List (String × Nat)

/-- The embedded engine as the routes see it: execute a parameterized
query, or run a statement without results; both can fail with a message. -/
structure Engine where
  runQuery : String → List JVal → Except String QueryRes
  runExec : String → Except String Unit

/-- One entry of a transaction response. -/
structure TxItemRes where
  rows : List DbRow
  rowCount : Nat

/-- The uniform JSON response envelope of the routes (absent fields are
keys the handler did not put in the body). -/
structure Resp where
  status : Nat
  success : Option Bool := none
  error : Option String := none
  rows : Option (List DbRow) := none
  rowCount : Option Nat := none
  results : Option (List TxItemRes) := none
  user : Option DbRow := none
  message : Option String := none
  payload : List (String × String) := []
  text : Option String := none

/-- The message of a schema-validation failure (zod's thrown error,
serialized by the catch block). -/
def zodMessage : String := "invalid request body"

/-- The transaction loop: execute each entry in order, stopping at the
first failure; also the list of statements actually issued, in order. -/
def runBatch (eng : Engine) : List TxItem → Except String (List TxItemRes) × List String
  | [] => (.ok [], [])
  | q :: rest =>
    match eng.runQuery q.query q.params with
    | .error e => (.error e, [q.query])
    | .ok r =>
      let (res, tr) := runBatch eng rest
      (res.map (fun rs => ⟨r.rows, r.rows.length⟩ :: rs), q.query :: tr)

/-- The POST /transaction handler: validate, BEGIN, run the batch, COMMIT;
any failure lands in the catch block, which issues ROLLBACK (its own
outcome never inspected) and answers 400 with the original error. Returns
the response and the trace of statements issued to the engine. -/
def transactionHandler (eng : Engine) (body : JVal) : Resp × List String :=
  match transactionSchema body with
  | none => ({ status := 400, success := some false, error := some zodMessage }, ["ROLLBACK"])
  | some req =>
    match eng.runExec "BEGIN" with
    | .error e => ({ status := 400, success := some false, error := some e }, ["BEGIN", "ROLLBACK"])
    | .ok _ =>
      let (res, tr) := runBatch eng req.queries
      match res with
      | .error e =>
        ({ status := 400, success := some false, error := some e }, "BEGIN" :: (tr ++ ["ROLLBACK"]))
      | .ok results =>
        match eng.runExec "COMMIT" with
        | .error e =>
          ({ status := 400, success := some false, error := some e },
            "BEGIN" :: (tr ++ ["COMMIT", "ROLLBACK"]))
        | .ok _ =>
          ({ status := 200, success := some true, results := some results },
            "BEGIN" :: (tr ++ ["COMMIT"]))

/-- The POST /query handler. -/
def queryHandler (eng : Engine) (body : JVal) : Resp × List String :=
  match querySchema body with
  | none => ({ status := 400, success := some false, error := some zodMessage }, [])
  | some q =>
    match eng.runQuery q.query q.params with
    | .ok r =>
      ({ status := 200, success := some true, rows := some r.rows,
          rowCount := some r.rows.length }, [q.query])
    | .error e => ({ status := 400, success := some false, error := some e }, [q.query])

/-- The POST /import handler: validate, then hand the whole blob to the
engine as one batch. -/
def importHandler (eng : Engine) (body : JVal) : Resp × List String :=
  match importSchema body with
  | none => ({ status := 400, success := some false, error := some zodMessage }, [])
  | some r =>
    match eng.runExec r.sql with
    | .ok _ =>
      ({ status := 200, success := some true, message := some "SQL imported successfully" }, [r.sql])
    | .error e => ({ status := 400, success := some false, error := some e }, [r.sql])

/-- First binding of a column in a result row. -/
def lookupVal (row : DbRow) (col : String) : Option Val :=
  match row with
  | [] => none
  | (k, v) :: rest => if k = col then some v else lookupVal rest col

/-- A column read as text, the way the handlers splice it (an absent or
non-string value renders as undefined). -/
def rowStr (row : DbRow) (col : String) : String :=
  match lookupVal row col with
  | some (.vstr s) => s
  | _ => "undefined"

/-- The catalog query listing the public tables (the export route's form,
without ORDER BY). -/
def pgTablesSQL : String :=
  "SELECT tablename FROM pg_tables WHERE schemaname = 'public'"

/-- The catalog query of GET /tables. -/
def tablesSQL : String :=
  "SELECT tablename FROM pg_tables WHERE schemaname = 'public' ORDER BY tablename;"

/-- The catalog query of GET /tables/:tableName/schema. -/
def schemaSQL : String :=
  "SELECT column_name, data_type, is_nullable, column_default FROM information_schema.columns WHERE table_schema = 'public' AND table_name = $1 ORDER BY ordinal_position;"

/-- The query the export route runs to synthesize one CREATE TABLE text. -/
def createStmtSQL : String :=
  "SELECT 'CREATE TABLE ' || $1 || ' (' || string_agg(column_name || ' ' || data_type || CASE WHEN is_nullable = 'NO' THEN ' NOT NULL' ELSE '' END, ', ') || ');' as create_stmt FROM information_schema.columns WHERE table_name = $1 GROUP BY table_name;"

/-- The per-table size query of GET /stats. -/
def statsTablesSQL : String :=
  "SELECT schemaname, tablename, pg_size_pretty(pg_total_relation_size(schemaname||'.'||tablename)) AS size FROM pg_tables WHERE schemaname = 'public'"

/-- The database size query of GET /stats. -/
def dbSizeSQL : String :=
  "SELECT pg_size_pretty(pg_database_size(current_database())) as size"

/-- The per-table part of the export loop: for each listed table, have the
engine synthesize the CREATE TABLE text, select all rows, and append the
serialized section; an engine failure aborts the loop. Returns the dump
piece (or the error) and the statements issued. -/
def exportTables (eng : Engine) : List String → Except String String × List String
  | [] => (.ok "", [])
  | t :: rest =>
    match eng.runQuery createStmtSQL [.jstr t] with
    | .error e => (.error e, [createStmtSQL])
    | .ok cres =>
      match eng.runQuery ("SELECT * FROM " ++ t) [] with
      | .error e => (.error e, [createStmtSQL, "SELECT * FROM " ++ t])
      | .ok dres =>
        let piece :=
          (match cres.rows.head? with
            | some row => rowStr row "create_stmt"
            | none => "undefined") ++ "\n\n"
            ++ dataSection t (dres.rows.map (fun row => row.map Prod.snd))
        let (res, tr) := exportTables eng rest
        (res.map (fun s => piece ++ s),
          createStmtSQL :: ("SELECT * FROM " ++ t) :: tr)

/-- The GET /export handler at the engine boundary: list tables, then dump
each; on success the response is the SQL text, on failure a 500 envelope. -/
def exportDbRoute (eng : Engine) : Resp × List String :=
  match eng.runQuery pgTablesSQL [] with
  | .error e => ({ status := 500, success := some false, error := some e }, [pgTablesSQL])
  | .ok tres =>
    let names := tres.rows.map (fun row => rowStr row "tablename")
    let (res, tr) := exportTables eng names
    match res with
    | .error e => ({ status := 500, success := some false, error := some e }, pgTablesSQL :: tr)
    | .ok body =>
      ({ status := 200, text := some ("-- PGlite Database Export\n" ++ "-- Generated: (now)\n\n" ++ body) },
        pgTablesSQL :: tr)

/-- The GET /tables handler. -/
def tablesRoute (eng : Engine) : Resp × List String :=
  match eng.runQuery tablesSQL [] with
  | .ok r =>
    ({ status := 200, success := some true,
        rows := some r.rows }, [tablesSQL])
  | .error e => ({ status := 500, success := some false, error := some e }, [tablesSQL])

/-- The GET /tables/:tableName/schema handler. -/
def tableSchemaRoute (eng : Engine) (tableName : String) : Resp × List String :=
  match eng.runQuery schemaSQL [.jstr tableName] with
  | .ok r => ({ status := 200, success := some true, rows := some r.rows }, [schemaSQL])
  | .error e => ({ status := 500, success := some false, error := some e }, [schemaSQL])

/-- The GET /stats handler: two introspection queries. -/
def statsRoute (eng : Engine) : Resp × List String :=
  match eng.runQuery statsTablesSQL [] with
  | .error e => ({ status := 500, success := some false, error := some e }, [statsTablesSQL])
  | .ok tr =>
    match eng.runQuery dbSizeSQL [] with
    | .error e =>
      ({ status := 500, success := some false, error := some e }, [statsTablesSQL, dbSizeSQL])
    | .ok _ =>
      ({ status := 200, success := some true, rows := some tr.rows }, [statsTablesSQL, dbSizeSQL])

/-- The GET /users handler. -/
def usersListRoute (eng : Engine) : Resp × List String :=
  match eng.runQuery "SELECT * FROM users ORDER BY id" [] with
  | .ok r => ({ status := 200, success := some true, rows := some r.rows }, ["SELECT * FROM users ORDER BY id"])
  | .error e =>
    ({ status := 500, success := some false, error := some e }, ["SELECT * FROM users ORDER BY id"])

/-- The POST /users handler. -/
def createUserRoute (eng : Engine) (body : JVal) : Resp × List String :=
  match createUserSchema body with
  | none => ({ status := 400, success := some false, error := some zodMessage }, [])
  | some c =>
    match eng.runQuery "INSERT INTO users (name, email) VALUES ($1, $2) RETURNING *"
        [.jstr c.name, .jstr c.email] with
    | .ok r =>
      ({ status := 201, success := some true, user := r.rows.head? },
        ["INSERT INTO users (name, email) VALUES ($1, $2) RETURNING *"])
    | .error e =>
      ({ status := 400, success := some false, error := some e },
        ["INSERT INTO users (name, email) VALUES ($1, $2) RETURNING *"])

/-- The GET /users/:id handler at the engine boundary. -/
def getUserRoute (eng : Engine) (id : Int) : Resp × List String :=
  match eng.runQuery "SELECT * FROM users WHERE id = $1" [.jnum id] with
  | .ok r =>
    if r.rows.length = 0 then
      ({ status := 404, success := some false, error := some "User not found" },
        ["SELECT * FROM users WHERE id = $1"])
    else
      ({ status := 200, success := some true, user := r.rows.head? },
        ["SELECT * FROM users WHERE id = $1"])
  | .error e =>
    ({ status := 500, success := some false, error := some e },
      ["SELECT * FROM users WHERE id = $1"])

/-- JavaScript truthiness of the optional strings of the update handler:
present and nonempty. -/
def truthyStr : Option String → Bool
  | some s => !s.isEmpty
  | none => false

/-- The SET-clause builder of PUT /users/:id: one entry and one bind value
per truthy field, positional parameters numbered from 1; returns the
entries, the values, and the next parameter number. -/
def putUpdates (u : UpdateUserReq) : List String × List JVal × Nat :=
  let acc : List String × List JVal × Nat := ([], [], 1)
  let acc :=
    if truthyStr u.name then
      (acc.1 ++ ["name = $" ++ intStr acc.2.2], acc.2.1 ++ [JVal.jstr (u.name.getD "")], acc.2.2 + 1)
    else acc
  let acc :=
    if truthyStr u.email then
      (acc.1 ++ ["email = $" ++ intStr acc.2.2], acc.2.1 ++ [JVal.jstr (u.email.getD "")], acc.2.2 + 1)
    else acc
  acc

/-- The UPDATE statement text PUT /users/:id builds from the SET entries. -/
def putSQL (updates : List String) (paramCount : Nat) : String :=
  "UPDATE users SET " ++ joinSep ", " updates ++ " WHERE id = $" ++ intStr paramCount ++ " RETURNING *"

/-- The PUT /users/:id handler at the engine boundary: validate, build the
SET clause from the truthy fields, reject with 400 when it is empty, run
the UPDATE, 404 on zero returned rows. -/
def putUserRoute (eng : Engine) (id : Int) (body : JVal) : Resp × List String :=
  match updateUserSchema body with
  | none => ({ status := 400, success := some false, error := some zodMessage }, [])
  | some u =>
    let (updates, values, paramCount) := putUpdates u
    if updates.isEmpty then
      ({ status := 400, success := some false, error := some "No fields to update" }, [])
    else
      match eng.runQuery (putSQL updates paramCount) (values ++ [JVal.jnum id]) with
      | .ok r =>
        if r.rows.length = 0 then
          ({ status := 404, success := some false, error := some "User not found" },
            [putSQL updates paramCount])
        else
          ({ status := 200, success := some true, user := r.rows.head? },
            [putSQL updates paramCount])
      | .error e =>
        ({ status := 400, success := some false, error := some e }, [putSQL updates paramCount])

/-- The DELETE /users/:id handler at the engine boundary. -/
def deleteUserRoute (eng : Engine) (id : Int) : Resp × List String :=
  match eng.runQuery "DELETE FROM users WHERE id = $1 RETURNING *" [.jnum id] with
  | .ok r =>
    if r.rows.length = 0 then
      ({ status := 404, success := some false, error := some "User not found" },
        ["DELETE FROM users WHERE id = $1 RETURNING *"])
    else
      ({ status := 200, success := some true, message := some "User deleted", user := r.rows.head? },
        ["DELETE FROM users WHERE id = $1 RETURNING *"])
  | .error e =>
    ({ status := 500, success := some false, error := some e },
      ["DELETE FROM users WHERE id = $1 RETURNING *"])

/-- The routes of the server, path parameters already extracted. -/
inductive Route where
  | health
  | query
  | transaction
  | tables
  | tableSchema (tableName : String)
  | exportDb
  | importDb
  | stats
  | usersList
  | usersCreate
  | userGet (id : Int)
  | userPut (id : Int)
  | userDelete (id : Int)
deriving DecidableEq

/-- Dispatch of one request to its handler, returning the response and the
trace of statements issued to the engine. -/
def routeHandler (r : Route) (eng : Engine) (body : JVal) : Resp × List String :=
  match r with
  | .health =>
    ({ status := 200, payload := [("status", "healthy"), ("database", "connected")] }, [])
  | .query => queryHandler eng body
  | .transaction => transactionHandler eng body
  | .tables => tablesRoute eng
  | .tableSchema t => tableSchemaRoute eng t
  | .exportDb => exportDbRoute eng
  | .importDb => importHandler eng body
  | .stats => statsRoute eng
  | .usersList => usersListRoute eng
  | .usersCreate => createUserRoute eng body
  | .userGet id => getUserRoute eng id
  | .userPut id => putUserRoute eng id body
  | .userDelete id => deleteUserRoute eng id

/-- The body-size limit of the JSON body parser: 10mb. -/
def jsonBodyLimit : Nat := 10 * 1024 * 1024

/-- Modelled from the spec: the express.json middleware with limit 10mb (a
vendored dependency) rejects an oversized body before any route handler
runs; otherwise the route handler serves the request. -/
def handleRequest (r : Route) (eng : Engine) (body : JVal) (bodyBytes : Nat) : Resp × List String :=
  if jsonBodyLimit < bodyBytes then
    ({ status := 413, error := some "request entity too large" }, [])
  else routeHandler r eng body

/-- Whether the declarative body validation of a route fails on a body
(routes without a body schema never fail validation). -/
def validationFails (r : Route) (body : JVal) : Bool :=
  match r with
  | .query => (querySchema body).isNone
  | .transaction => (transactionSchema body).isNone
  | .importDb => (importSchema body).isNone
  | .usersCreate => (createUserSchema body).isNone
  | .userPut _ => (updateUserSchema body).isNone
  | _ => false

/-- A row of the users table (created_at kept abstract as an integer
timestamp). -/
structure UserRow where
  id : Int
  name : String
  email : String
  createdAt : Int
deriving DecidableEq

/-- A users row as the engine returns it. -/
def userRowToDb (r : UserRow) : DbRow :=
  [("id", .vint r.id), ("name", .vstr r.name), ("email", .vstr r.email),
    ("created_at", .vint r.createdAt)]

/-- Modelled from the spec: the engine executing SELECT * FROM users WHERE
id = $1 over the users table. -/
def usersSelect (tbl : List UserRow) (id : Int) : List UserRow :=
  tbl.filter (fun r => r.id == id)

/-- Modelled from the spec: the engine executing the built UPDATE users SET
... WHERE id = $k RETURNING * statement: rewrites exactly the addressed
columns of the rows whose id matches (an absent column keeps its value) and
returns the updated rows. -/
def usersUpdate (tbl : List UserRow) (id : Int) (newName newEmail : Option String) :
    List UserRow × List UserRow :=
  (tbl.map (fun r =>
      if r.id == id then
        { r with name := newName.getD r.name, email := newEmail.getD r.email }
      else r),
    (tbl.filter (fun r => r.id == id)).map (fun r =>
      { r with name := newName.getD r.name, email := newEmail.getD r.email }))

/-- Modelled from the spec: the engine executing DELETE FROM users WHERE
id = $1 RETURNING *. -/
def usersDelete (tbl : List UserRow) (id : Int) : List UserRow × List UserRow :=
  (tbl.filter (fun r => !(r.id == id)), tbl.filter (fun r => r.id == id))

/-- The GET /users/:id handler composed with the relational semantics of
its SELECT statement. -/
def getUserAction (tbl : List UserRow) (id : Int) : Resp :=
  let rows := usersSelect tbl id
  if rows.length = 0 then
    { status := 404, success := some false, error := some "User not found" }
  else
    { status := 200, success := some true, user := (rows.map userRowToDb).head? }

/-- The PUT /users/:id handler composed with the relational semantics of
its UPDATE statement: 400 with no statement executed when no truthy field
was supplied, else update and 404 on zero returned rows. -/
def putUserAction (tbl : List UserRow) (id : Int) (u : UpdateUserReq) :
    Resp × List UserRow :=
  if !truthyStr u.name && !truthyStr u.email then
    ({ status := 400, success := some false, error := some "No fields to update" }, tbl)
  else
    let nameArg := if truthyStr u.name then u.name else none
    let emailArg := if truthyStr u.email then u.email else none
    let (tbl2, ret) := usersUpdate tbl id nameArg emailArg
    if ret.length = 0 then
      ({ status := 404, success := some false, error := some "User not found" }, tbl2)
    else
      ({ status := 200, success := some true, user := (ret.map userRowToDb).head? }, tbl2)

/-- The DELETE /users/:id handler composed with the relational semantics of
its DELETE statement. -/
def deleteUserAction (tbl : List UserRow) (id : Int) : Resp × List UserRow :=
  let (tbl2, ret) := usersDelete tbl id
  if ret.length = 0 then
    ({ status := 404, success := some false, error := some "User not found" }, tbl2)
  else
    ({ status := 200, success := some true, message := some "User deleted",
        user := (ret.map userRowToDb).head? }, tbl2)

/-- The environment startServer runs in: whether the data directory accepts
the write-then-delete smoke test, whether the engine can open the store,
and whether the bootstrap DDL succeeds. -/
structure SysEnv where
  writable : Bool
  engineOpens : Bool
  schemaOk : Bool
deriving DecidableEq

/-- How a process run ends. -/
inductive StartOutcome where
  | exited (code : Nat)
  | listening
deriving DecidableEq

/-- What a run of startServer did: the outcome, how many write smoke tests
ran, and whether the HTTP listener was ever bound. -/
structure StartReport where
  outcome : StartOutcome
  writeAttempts : Nat
  listenerBound : Bool
deriving DecidableEq

/-- The initDB sequence: one filesystem write-then-delete check (throwing
on failure), then engine open, then bootstrap DDL. -/
def initDB (env : SysEnv) : Except String Unit :=
  if !env.writable then .error "filesystem check failed"
  else if !env.engineOpens then .error "failed to create PGlite instance"
  else if !env.schemaOk then .error "schema bootstrap failed"
  else .ok ()

/-- The startServer sequence: best-effort stale-lock cleanup, then initDB;
on its failure process.exit(1) runs before app.listen, otherwise the
listener binds. -/
def startServer (env : SysEnv) : StartReport :=
  match initDB env with
  | .error _ => { outcome := .exited 1, writeAttempts := 1, listenerBound := false }
  | .ok _ => { outcome := .listening, writeAttempts := 1, listenerBound := true }

/-- Identifier characters of the unquoted table names the dump splices. -/
def isIdentCh (c : Char) : Bool := c.isAlphanum || c = '_'

/-- Modelled from the spec: the engine's reader for an unquoted identifier
(longest run of identifier characters). -/
def parseIdentAux (acc : List Char) : List Char → List Char × List Char
  | [] => (acc, [])
  | c :: cs => if isIdentCh c then parseIdentAux (acc ++ [c]) cs else (acc, c :: cs)

/-- Modelled from the spec: one identifier, nonempty. -/
def parseIdent (cs : List Char) : Option (String × List Char) :=
  match parseIdentAux [] cs with
  | (nm, rest) => if nm.isEmpty then none else some (⟨nm⟩, rest)

/-- Modelled from the spec: the engine's reader for the body of a quoted
string literal, with a doubled quote standing for one quote character. -/
def parseStrBody (acc : List Char) : List Char → Option (String × List Char)
  | [] => none
  | c :: cs =>
    if c = qc then
      match cs with
      | [] => some (⟨acc⟩, [])
      | c2 :: cs2 => if c2 = qc then parseStrBody (acc ++ [qc]) cs2 else some (⟨acc⟩, c2 :: cs2)
    else parseStrBody (acc ++ [c]) cs
termination_by cs => cs.length
decreasing_by
  all_goals simp_arith

/-- Numeric value of a decimal digit character. -/
def digitVal (c : Char) : Nat := c.toNat - 48

/-- Modelled from the spec: the engine's reader for a run of decimal
digits, accumulating their value. -/
def parseDigitsAux (acc : Nat) : List Char → Nat × List Char
  | [] => (acc, [])
  | c :: cs => if c.isDigit then parseDigitsAux (acc * 10 + digitVal c) cs else (acc, c :: cs)

/-- Modelled from the spec: a nonempty run of decimal digits. -/
def parseDigits (cs : List Char) : Option (Nat × List Char) :=
  match cs with
  | c :: _ => if c.isDigit then some (parseDigitsAux 0 cs) else none
  | [] => none

/-- Modelled from the spec: the engine's reader for one SQL literal of the
dump: a quoted string, NULL, a boolean, or a signed decimal number. -/
def parseLit (cs : List Char) : Option (Val × List Char) :=
  match cs with
  | [] => none
  | c :: rest =>
    if c = qc then
      match parseStrBody [] rest with
      | some (s, r) => some (.vstr s, r)
      | none => none
    else if c = 'n' then
      if rest.take 3 = ['u', 'l', 'l'] then some (.vnull, rest.drop 3) else none
    else if c = 't' then
      if rest.take 3 = ['r', 'u', 'e'] then some (.vbool true, rest.drop 3) else none
    else if c = 'f' then
      if rest.take 4 = ['a', 'l', 's', 'e'] then some (.vbool false, rest.drop 4) else none
    else if c = '-' then
      match parseDigits rest with
      | some (n, r) => some (.vint (-(n : Int)), r)
      | none => none
    else if c.isDigit then
      match parseDigits (c :: rest) with
      | some (n, r) => some (.vint (n : Int), r)
      | none => none
    else none

theorem parseDigitsAux_length (cs : List Char) :
    ∀ acc, (parseDigitsAux acc cs).2.length ≤ cs.length := by
  induction cs with
  | nil => intro acc; simp [parseDigitsAux]
  | cons c cs ih =>
    intro acc
    by_cases h : c.isDigit <;> simp [parseDigitsAux, h]
    exact Nat.le_succ_of_le (ih _)

theorem parseStrBody_length :
    ∀ (n : Nat) (cs : List Char), cs.length ≤ n →
      ∀ acc s r, parseStrBody acc cs = some (s, r) → r.length ≤ cs.length := by
  intro n
  induction n with
  | zero =>
    intro cs hle acc s r h
    have hnil : cs = [] := List.eq_nil_of_length_eq_zero (Nat.le_zero.mp hle)
    subst hnil
    rw [parseStrBody.eq_def] at h
    exact absurd h (by simp)
  | succ n ih =>
    intro cs hle acc s r h
    rw [parseStrBody.eq_def] at h
    split at h
    · exact absurd h (by simp)
    · split at h
      · split at h
        · simp at h
          simp [← h.2]
        · split at h
          · have := ih _ (by simp only [List.length_cons] at hle; omega) _ _ _ h
            simp only [List.length_cons]
            omega
          · simp at h
            rw [← h.2]
            simp only [List.length_cons]
            omega
      · have := ih _ (by simp only [List.length_cons] at hle; omega) _ _ _ h
        simp only [List.length_cons]
        omega

theorem parseDigits_length (cs : List Char) (n : Nat) (r : List Char)
    (h : parseDigits cs = some (n, r)) : r.length < cs.length := by
  match cs with
  | [] => simp [parseDigits] at h
  | c :: rest =>
    rw [parseDigits] at h
    split at h
    · rename_i hdg
      simp only [Option.some.injEq] at h
      have hx : parseDigitsAux 0 (c :: rest) = parseDigitsAux (0 * 10 + digitVal c) rest := by
        simp [parseDigitsAux, hdg]
      rw [hx] at h
      have := parseDigitsAux_length rest (0 * 10 + digitVal c)
      rw [h] at this
      simp only [List.length_cons]
      simp at this
      omega
    · exact absurd h (by simp)

theorem parseLit_length (cs : List Char) (v : Val) (r : List Char)
    (h : parseLit cs = some (v, r)) : r.length < cs.length := by
  match cs with
  | [] => simp [parseLit] at h
  | c :: rest =>
    rw [parseLit.eq_def] at h
    split at h
    · exact absurd h (by simp)
    · rename_i c2 rest2 heq
      injection heq with hc hrest
      subst hc
      subst hrest
      split at h
      · split at h
        · rename_i s rr hsb
          have := parseStrBody_length rest.length rest le_rfl _ _ _ hsb
          simp at h
          rw [← h.2]
          simp only [List.length_cons]
          omega
        · exact absurd h (by simp)
      · split at h
        · split at h
          · rename_i htake
            simp at h
            rw [← h.2]
            have hlen : rest.length ≥ 3 := by
              have := congrArg List.length htake
              simp [List.length_take] at this
              omega
            simp only [List.length_drop, List.length_cons]
            omega
          · exact absurd h (by simp)
        · split at h
          · split at h
            · rename_i htake
              simp at h
              rw [← h.2]
              have hlen : rest.length ≥ 3 := by
                have := congrArg List.length htake
                simp [List.length_take] at this
                omega
              simp only [List.length_drop, List.length_cons]
              omega
            · exact absurd h (by simp)
          · split at h
            · split at h
              · rename_i htake
                simp at h
                rw [← h.2]
                have hlen : rest.length ≥ 4 := by
                  have := congrArg List.length htake
                  simp [List.length_take] at this
                  omega
                simp only [List.length_drop, List.length_cons]
                omega
              · exact absurd h (by simp)
            · split at h
              · split at h
                · rename_i m rr hd
                  have := parseDigits_length rest m rr hd
                  simp at h
                  rw [← h.2]
                  simp only [List.length_cons]
                  omega
                · exact absurd h (by simp)
              · split at h
                · split at h
                  · rename_i m rr hd
                    have := parseDigits_length (c :: rest) m rr hd
                    simp at h
                    rw [← h.2]
                    exact this
                  · exact absurd h (by simp)
                · exact absurd h (by simp)

/-- Modelled from the spec: the engine reading the comma-separated literal
list of one INSERT statement, fuel-bounded (one unit per literal; callers
pass the input length, which always suffices). -/
def parseValsFuel : Nat → List Char → Option (List Val × List Char)
  | 0, _ => none
  | fuel + 1, cs =>
    match parseLit cs with
    | none => none
    | some (v, rest) =>
      if rest.take 2 = [',', ' '] then
        match parseValsFuel fuel (rest.drop 2) with
        | some (vs, r) => some (v :: vs, r)
        | none => none
      else some ([v], rest)

/-- Modelled from the spec: the literal list of one INSERT statement. -/
def parseValsCore (cs : List Char) : Option (List Val × List Char) :=
  parseValsFuel cs.length cs

theorem parseValsFuel_length :
    ∀ (fuel : Nat) (cs : List Char) (vs : List Val) (r : List Char),
      parseValsFuel fuel cs = some (vs, r) → r.length ≤ cs.length := by
  intro fuel
  induction fuel with
  | zero => intro cs vs r h; simp [parseValsFuel] at h
  | succ fuel ih =>
    intro cs vs r h
    rw [parseValsFuel] at h
    split at h
    · exact absurd h (by simp)
    · rename_i v rest hlit
      have hlen := parseLit_length cs v rest hlit
      split at h
      · split at h
        · rename_i vs2 r2 hrec
          have hr := ih _ _ _ hrec
          simp at h
          rw [← h.2]
          simp only [List.length_drop] at hr
          omega
        · exact absurd h (by simp)
      · simp at h
        rw [← h.2]
        omega

theorem parseValsCore_length (cs : List Char) (vs : List Val) (r : List Char)
    (h : parseValsCore cs = some (vs, r)) : r.length ≤ cs.length :=
  parseValsFuel_length cs.length cs vs r h

/-- Modelled from the spec: the engine skipping the column definitions of a
CREATE TABLE statement to the closing parenthesis. -/
def skipToParen : List Char → Option (List Char)
  | [] => none
  | c :: cs => if c = ')' then some cs else skipToParen cs

/-- Drop the rest of a comment line, up to and including its newline. -/
def dropLine : List Char → List Char
  | [] => []
  | c :: cs => if c = '\n' then cs else dropLine cs

/-- A statement of the dump as the replaying engine classifies it. -/
inductive Stmt where
  | create (table : String)
  | insert (table : String) (vals : List Val)
deriving DecidableEq

/-- Modelled from the spec: the engine reading one CREATE TABLE statement
after its keyword: table name, the parenthesized column list (whose text
does not affect replayed row data), and the closing semicolon. -/
def parseCreate (cs : List Char) : Option (Stmt × List Char) :=
  match parseIdent cs with
  | some (name, rest) =>
    match rest with
    | ' ' :: '(' :: rest2 =>
      match skipToParen rest2 with
      | some rest3 =>
        match rest3 with
        | ';' :: rest4 => some (.create name, rest4)
        | _ => none
      | none => none
    | _ => none
  | none => none

/-- The text between the table name and the value list of an INSERT. -/
def valuesKw : List Char := " VALUES (".data

/-- Modelled from the spec: the engine reading one INSERT statement after
its keyword: table name, VALUES keyword, literal list, closing. -/
def parseInsert (cs : List Char) : Option (Stmt × List Char) :=
  match parseIdent cs with
  | some (name, rest) =>
    if rest.take 9 = valuesKw then
      match parseValsCore (rest.drop 9) with
      | some (vals, rest2) =>
        match rest2 with
        | ')' :: ';' :: rest3 => some (.insert name vals, rest3)
        | _ => none
      | none => none
    else none
  | none => none

theorem parseIdentAux_length (cs : List Char) :
    ∀ acc, (parseIdentAux acc cs).2.length ≤ cs.length := by
  induction cs with
  | nil => intro acc; simp [parseIdentAux]
  | cons c cs ih =>
    intro acc
    by_cases h : isIdentCh c <;> simp [parseIdentAux, h]
    exact Nat.le_succ_of_le (ih _)

theorem parseIdent_length (cs : List Char) (nm : String) (r : List Char)
    (h : parseIdent cs = some (nm, r)) : r.length ≤ cs.length := by
  rw [parseIdent] at h
  split at h
  · rename_i nm2 rest heq
    split at h
    · exact absurd h (by simp)
    · simp at h
      rw [← h.2]
      have := parseIdentAux_length cs []
      rw [heq] at this
      exact this

theorem skipToParen_length (cs : List Char) (r : List Char)
    (h : skipToParen cs = some r) : r.length < cs.length := by
  induction cs with
  | nil => simp [skipToParen] at h
  | cons c cs ih =>
    by_cases hc : c = ')'
    · simp [skipToParen, hc] at h
      rw [← h]
      simp
    · simp [skipToParen, hc] at h
      have := ih h
      simp only [List.length_cons]
      omega

theorem dropLine_length (cs : List Char) : (dropLine cs).length ≤ cs.length := by
  induction cs with
  | nil => simp [dropLine]
  | cons c cs ih =>
    by_cases hc : c = '\n' <;> simp [dropLine, hc]
    omega

theorem parseCreate_length (cs : List Char) (st : Stmt) (r : List Char)
    (h : parseCreate cs = some (st, r)) : r.length ≤ cs.length := by
  rw [parseCreate] at h
  split at h
  · split at h
    · split at h
      · split at h
        · simp at h
          have h1 := parseIdent_length cs _ _ (by assumption)
          have h2 := skipToParen_length _ _ (by assumption)
          rw [← h.2]
          simp only [List.length_cons] at h1 h2 ⊢
          omega
        · exact absurd h (by simp)
      · exact absurd h (by simp)
    · exact absurd h (by simp)
  · exact absurd h (by simp)

theorem parseInsert_length (cs : List Char) (st : Stmt) (r : List Char)
    (h : parseInsert cs = some (st, r)) : r.length ≤ cs.length := by
  rw [parseInsert] at h
  split at h
  · split at h
    · split at h
      · split at h
        · simp at h
          have h1 := parseIdent_length cs _ _ (by assumption)
          have h2 := parseValsCore_length _ _ _ (by assumption)
          rw [← h.2]
          simp only [List.length_drop, List.length_cons] at h1 h2 ⊢
          omega
        · exact absurd h (by simp)
      · exact absurd h (by simp)
    · exact absurd h (by simp)
  · exact absurd h (by simp)

/-- The CREATE TABLE keyword of the dump. -/
def createKw : List Char := "CREATE TABLE ".data

/-- The INSERT INTO keyword of the dump. -/
def insertKw : List Char := "INSERT INTO ".data

/-- Modelled from the spec: the engine splitting the dump text into
statements: whitespace is skipped, a line starting with two dashes is a
comment, and each statement is a CREATE TABLE or an INSERT INTO; anything
else is a syntax error. Fuel-bounded by the input length (each step
consumes at least one character), with the wrapper below passing it. -/
def parseStmtsFuel : Nat → List Char → Option (List Stmt)
  | _, [] => some []
  | 0, _ :: _ => none
  | fuel + 1, c :: cs2 =>
    if c = '\n' ∨ c = ' ' then parseStmtsFuel fuel cs2
    else if c = '-' then
      match cs2 with
      | '-' :: cs3 => parseStmtsFuel fuel (dropLine cs3)
      | _ => none
    else if (c :: cs2).take 13 = createKw then
      match parseCreate ((c :: cs2).drop 13) with
      | some (st, rest) =>
        match parseStmtsFuel fuel rest with
        | some sts => some (st :: sts)
        | none => none
      | none => none
    else if (c :: cs2).take 12 = insertKw then
      match parseInsert ((c :: cs2).drop 12) with
      | some (st, rest) =>
        match parseStmtsFuel fuel rest with
        | some sts => some (st :: sts)
        | none => none
      | none => none
    else none

/-- Modelled from the spec: the statements of a dump text. -/
def parseStmts (cs : List Char) : Option (List Stmt) :=
  parseStmtsFuel cs.length cs

/-- The engine's store as replay sees it: table name and rows. -/
structure DbTable where
  name : String
  rows : List (List Val)
deriving DecidableEq

/-- The replaying engine's state. -/
abbrev Store := List DbTable

/-- Whether the store has a table of this name. -/
def hasTable (st : Store) (name : String) : Bool :=
  st.any (fun t => t.name == name)

/-- Modelled from the spec: replaying one statement of the batch: CREATE
TABLE registers a fresh empty table, INSERT appends one row; a duplicate or
missing relation is an error. -/
def applyStmt (st : Store) : Stmt → Except String Store
  | .create name =>
    if hasTable st name then .error ("relation already exists: " ++ name)
    else .ok (st ++ [{ name := name, rows := [] }])
  | .insert name vals =>
    if hasTable st name then
      .ok (st.map (fun t => if t.name == name then { t with rows := t.rows ++ [vals] } else t))
    else .error ("relation does not exist: " ++ name)

/-- Modelled from the spec: replaying the statements in order, stopping at
the first failure. -/
def applyStmts (st : Store) : List Stmt → Except String Store
  | [] => .ok st
  | s :: rest =>
    match applyStmt st s with
    | .ok st2 => applyStmts st2 rest
    | .error e => .error e

/-- Modelled from the spec: the engine executing a raw SQL text as one
multi-statement batch (db.exec), as POST /import does with the body. -/
def execBlob (sql : String) (st : Store) : Except String Store :=
  match parseStmts sql.data with
  | some stmts => applyStmts st stmts
  | none => .error "syntax error"

/-- SELECT * FROM name: the rows of the named table. -/
def selectStar (st : Store) (name : String) : List (List Val) :=
  match st.find? (fun t => t.name == name) with
  | some t => t.rows
  | none => []

/-- The engine store a list of catalog tables denotes. -/
def storeOf (tables : List Table) : Store :=
  tables.map (fun t => { name := t.name, rows := t.rows })

/-- Wellformedness of an unquoted spliced table name: a nonempty run of
identifier characters. -/
def identOk (s : String) : Bool := !s.data.isEmpty && s.data.all isIdentCh

/-- Characters the catalog produces in column names and type names. -/
def isColCh (c : Char) : Bool := c.isAlphanum || c = '_' || c = ' '

/-- Catalog-shaped column text. -/
def colOk (c : Column) : Bool :=
  c.name.data.all isColCh && c.dataType.data.all isColCh

/-- A simple exportable table: plain identifier name, at least one column,
catalog-shaped column text, and rows matching the column count. -/
def wfTable (t : Table) : Prop :=
  identOk t.name = true ∧ t.cols ≠ [] ∧ (∀ c ∈ t.cols, colOk c = true) ∧
    ∀ row ∈ t.rows, row.length = t.cols.length

/-- A store of simple tables with distinct names. -/
def wfStore (store : List Table) : Prop :=
  (store.map Table.name).Nodup ∧ ∀ t ∈ store, wfTable t

/-- The generation timestamp renders as one comment line. -/
def tsOk (ts : String) : Bool := ts.data.all (fun c => c != '\n')

/-- The statements the dump section of one table denotes. -/
def stmtsOfTable (t : Table) : List Stmt :=
  .create t.name :: t.rows.map (Stmt.insert t.name)

/-- The statements the whole dump denotes. -/
def stmtsOf (store : List Table) : List Stmt :=
  store.flatMap stmtsOfTable

/-- An engine whose every call succeeds with an empty result (a concrete
oracle for counterexamples and witnesses). -/
def engOk : Engine :=
  { runQuery := fun _ _ => .ok { rows := [], fields := [] },
    runExec := fun _ => .ok () }

/-- An engine whose every query fails (a concrete failing oracle). -/
def engFail : Engine :=
  { runQuery := fun _ _ => .error "boom",
    runExec := fun _ => .ok () }

/-- A one-statement transaction request body. -/
def txBody : JVal :=
  JVal.jobj [("queries", JVal.jarr [JVal.jobj [("query", JVal.jstr "SELECT 1")]])]

/-- The params shape zod accepts for an entry: absent or an array. -/
def paramsShape (fields : List (String × JVal)) : Prop :=
  match lookupField fields "params" with
  | none => True
  | some (.jarr _) => True
  | some _ => False

/-- The shape of one transaction entry: an object carrying a string query
and optionally an array params. -/
def entryShape (j : JVal) : Prop :=
  ∃ efields, j = .jobj efields ∧
    (∃ s, lookupField efields "query" = some (.jstr s)) ∧ paramsShape efields

/-- C10: GET /health always returns 200 with the constant payload status
healthy and database connected, issuing no statement to the session:
whatever the engine, the handler neither consults nor probes it. -/
theorem c10_health_constant (eng : Engine) (body : JVal) :
    routeHandler Route.health eng body =
      ({ status := 200, payload := [("status", "healthy"), ("database", "connected")] }, []) := rfl

/-- C9: every request whose JSON body exceeds the 10 megabyte limit of the
body parser is rejected before any route handler runs, with the empty
database-call trace, uniformly over all routes including POST /import. -/
theorem c9_body_limit (r : Route) (eng : Engine) (body : JVal) (bodyBytes : Nat)
    (h : jsonBodyLimit < bodyBytes) :
    handleRequest r eng body bodyBytes =
      ({ status := 413, error := some "request entity too large" }, []) := by
  unfold handleRequest
  rw [if_pos h]

/-- Witness for C9 at a body one byte over the limit, on POST /import. -/
theorem c9_body_limit_witness :
    jsonBodyLimit < 10485761 ∧
      handleRequest Route.importDb engOk (JVal.jobj []) 10485761 =
        ({ status := 413, error := some "request entity too large" }, []) :=
  ⟨by decide, c9_body_limit Route.importDb engOk (JVal.jobj []) 10485761 (by decide)⟩

/-- C8: when the write-then-delete smoke test on the data directory fails,
startup aborts with exit code 1 after exactly one attempt (no retry) and
the HTTP listener is never bound. -/
theorem c8_unwritable_store_aborts (env : SysEnv) (h : env.writable = false) :
    startServer env =
      { outcome := .exited 1, writeAttempts := 1, listenerBound := false } := by
  simp [startServer, initDB, h]

/-- Witness for C8 at an environment whose store is not writable. -/
theorem c8_unwritable_store_aborts_witness :
    ({ writable := false, engineOpens := true, schemaOk := true } : SysEnv).writable = false ∧
      startServer { writable := false, engineOpens := true, schemaOk := true } =
        { outcome := .exited 1, writeAttempts := 1, listenerBound := false } :=
  ⟨rfl, c8_unwritable_store_aborts { writable := false, engineOpens := true, schemaOk := true } rfl⟩

/-- C3 counterexample: the transaction validator accepts the request whose
queries field is the empty list (the claim says it rejects every such
request). -/
theorem c3_counterexample :
    transactionSchema (JVal.jobj [("queries", JVal.jarr [])]) = some { queries := [] } := rfl

theorem txItemSchema_shape (j : JVal) (it : TxItem) (h : txItemSchema j = some it) :
    entryShape j := by
  unfold txItemSchema at h
  split at h
  · rename_i fields
    refine ⟨fields, rfl, ?_⟩
    split at h
    · rename_i q hq
      refine ⟨⟨q, hq⟩, ?_⟩
      unfold paramsShape
      split at h <;> simp_all [paramsShape]
    · exact absurd h (by simp)
  · exact absurd h (by simp)

theorem txItems_sound (qs : List JVal) :
    ∀ items, qs.mapM txItemSchema = some items →
      items.length = qs.length ∧ ∀ q ∈ qs, entryShape q := by
  induction qs with
  | nil =>
    intro items h
    have h0 : ([] : List JVal).mapM txItemSchema = some [] := rfl
    rw [h0] at h
    simp at h
    subst h
    simp
  | cons q rest ih =>
    intro items h
    rw [List.mapM_cons] at h
    match hq : txItemSchema q with
    | none => rw [hq] at h; simp at h
    | some it =>
      rw [hq] at h
      match hr : rest.mapM txItemSchema with
      | none => rw [hr] at h; simp at h
      | some its =>
        rw [hr] at h
        simp at h
        obtain ⟨hlen, hall⟩ := ih its hr
        constructor
        · rw [← h]
          simp [hlen]
        · intro x hx
          rcases List.mem_cons.mp hx with hx1 | hx2
          · exact hx1 ▸ txItemSchema_shape q it hq
          · exact hall x hx2

/-- C3 amended: the transaction validator accepts exactly the bodies that
carry an ordered list of query/params entries, with no nonempty
constraint: in particular the empty list is accepted (and each accepted
entry is an object with a string query and optional array params). -/
theorem c3_empty_batch_accepted :
    transactionSchema (JVal.jobj [("queries", JVal.jarr [])]) = some { queries := [] } ∧
    ∀ body r, transactionSchema body = some r →
      ∃ fields qs, body = .jobj fields ∧
        lookupField fields "queries" = some (.jarr qs) ∧
        r.queries.length = qs.length ∧ ∀ q ∈ qs, entryShape q := by
  refine ⟨rfl, ?_⟩
  intro body r h
  unfold transactionSchema at h
  split at h
  · rename_i fields
    split at h
    · rename_i qs hq
      refine ⟨fields, qs, rfl, hq, ?_⟩
      match hm : qs.mapM txItemSchema with
      | none => rw [hm] at h; simp at h
      | some items =>
        rw [hm] at h
        simp at h
        obtain ⟨hlen, hall⟩ := txItems_sound qs items hm
        exact ⟨by rw [← h]; exact hlen, hall⟩
    · exact absurd h (by simp)
  · exact absurd h (by simp)

/-- C2 counterexample: on POST /transaction a body failing validation is
answered 400, yet the handler's database-call trace is not empty — its
catch block issues a ROLLBACK, so a database call is attempted. -/
theorem c2_counterexample :
    validationFails Route.transaction (JVal.jobj []) = true ∧
    (routeHandler Route.transaction engOk (JVal.jobj [])).1.status = 400 ∧
    (routeHandler Route.transaction engOk (JVal.jobj [])).2 = ["ROLLBACK"] := by
  refine ⟨rfl, rfl, rfl⟩

/-- C2 amended: on validation failure every route answers 400 with the
structured validation message and executes none of the request's
statements; every route except POST /transaction attempts no database call
at all, while the transaction handler's catch path issues exactly one
ROLLBACK even when validation failed. -/
theorem c2_validation_no_request_statement (r : Route) (eng : Engine) (body : JVal)
    (h : validationFails r body = true) :
    (routeHandler r eng body).1.status = 400 ∧
    (routeHandler r eng body).1.error = some zodMessage ∧
    (routeHandler r eng body).2 = (if r = Route.transaction then ["ROLLBACK"] else []) := by
  cases r with
  | health => simp [validationFails] at h
  | query =>
    simp only [validationFails, Option.isNone_iff_eq_none] at h
    simp [routeHandler, queryHandler, h]
  | transaction =>
    simp only [validationFails, Option.isNone_iff_eq_none] at h
    simp [routeHandler, transactionHandler, h]
  | tables => simp [validationFails] at h
  | tableSchema t => simp [validationFails] at h
  | exportDb => simp [validationFails] at h
  | importDb =>
    simp only [validationFails, Option.isNone_iff_eq_none] at h
    simp [routeHandler, importHandler, h]
  | stats => simp [validationFails] at h
  | usersList => simp [validationFails] at h
  | usersCreate =>
    simp only [validationFails, Option.isNone_iff_eq_none] at h
    simp [routeHandler, createUserRoute, h]
  | userGet id => simp [validationFails] at h
  | userPut id =>
    simp only [validationFails, Option.isNone_iff_eq_none] at h
    simp [routeHandler, putUserRoute, h]
  | userDelete id => simp [validationFails] at h

/-- Witness for C2 as amended, at POST /query with an empty body. -/
theorem c2_validation_witness :
    validationFails Route.query (JVal.jobj []) = true ∧
    (routeHandler Route.query engOk (JVal.jobj [])).1.status = 400 ∧
    (routeHandler Route.query engOk (JVal.jobj [])).1.error = some zodMessage ∧
    (routeHandler Route.query engOk (JVal.jobj [])).2 =
      (if Route.query = Route.transaction then ["ROLLBACK"] else []) :=
  ⟨rfl, c2_validation_no_request_statement Route.query engOk (JVal.jobj []) rfl⟩

theorem runBatch_congr (e1 e2 : Engine) (h : e1.runQuery = e2.runQuery) :
    ∀ qs, runBatch e1 qs = runBatch e2 qs := by
  intro qs
  induction qs with
  | nil => rfl
  | cons q rest ih => simp [runBatch, h, ih]

/-- C1: when validation passed, BEGIN succeeded and some statement of the
batch fails, the transaction handler answers 400 carrying exactly the
first failing statement's error, returns no results at all (none of the
earlier successes either), issues ROLLBACK as its last statement, and its
response does not depend on how the engine answers that ROLLBACK (a
rollback failure is swallowed). -/
theorem c1_transaction_rollback (eng : Engine) (body : JVal) (req : TxReq) (e : String)
    (hv : transactionSchema body = some req)
    (hb : eng.runExec "BEGIN" = .ok ())
    (hf : (runBatch eng req.queries).1 = .error e) :
    (transactionHandler eng body).1.status = 400 ∧
    (transactionHandler eng body).1.success = some false ∧
    (transactionHandler eng body).1.error = some e ∧
    (transactionHandler eng body).1.results = none ∧
    (transactionHandler eng body).1.rows = none ∧
    (transactionHandler eng body).2.getLast? = some "ROLLBACK" ∧
    ∀ eng2 : Engine, eng2.runQuery = eng.runQuery →
      eng2.runExec "BEGIN" = eng.runExec "BEGIN" →
      eng2.runExec "COMMIT" = eng.runExec "COMMIT" →
      transactionHandler eng2 body = transactionHandler eng body := by
  have hmain : transactionHandler eng body =
      ({ status := 400, success := some false, error := some e },
        "BEGIN" :: ((runBatch eng req.queries).2 ++ ["ROLLBACK"])) := by
    rcases hrb : runBatch eng req.queries with ⟨res, tr⟩
    rw [hrb] at hf
    simp only at hf
    subst hf
    simp [transactionHandler, hv, hb, hrb]
  rw [hmain]
  refine ⟨rfl, rfl, rfl, rfl, rfl, ?_, ?_⟩
  · rw [← List.cons_append, List.getLast?_append]
    simp
  · intro eng2 hq hbeg hcom
    rcases hrb : runBatch eng req.queries with ⟨res, tr⟩
    rw [hrb] at hf
    simp only at hf
    subst hf
    simp [transactionHandler, hv, hbeg, hb, runBatch_congr eng2 eng hq, hrb]

/-- Witness for C1: a concrete engine failing the single statement. -/
theorem c1_transaction_rollback_witness :
    transactionSchema txBody = some { queries := [{ query := "SELECT 1", params := [] }] } ∧
    engFail.runExec "BEGIN" = .ok () ∧
    (runBatch engFail [{ query := "SELECT 1", params := [] }]).1 = .error "boom" ∧
    (transactionHandler engFail txBody).1.status = 400 ∧
    (transactionHandler engFail txBody).1.error = some "boom" ∧
    (transactionHandler engFail txBody).1.results = none ∧
    (transactionHandler engFail txBody).2.getLast? = some "ROLLBACK" :=
  ⟨rfl, rfl, rfl,
    (c1_transaction_rollback engFail txBody
      { queries := [{ query := "SELECT 1", params := [] }] } "boom" rfl rfl rfl).1,
    (c1_transaction_rollback engFail txBody
      { queries := [{ query := "SELECT 1", params := [] }] } "boom" rfl rfl rfl).2.2.1,
    (c1_transaction_rollback engFail txBody
      { queries := [{ query := "SELECT 1", params := [] }] } "boom" rfl rfl rfl).2.2.2.1,
    (c1_transaction_rollback engFail txBody
      { queries := [{ query := "SELECT 1", params := [] }] } "boom" rfl rfl rfl).2.2.2.2.2.1⟩

/-- C6: for GET, PUT and DELETE on /users/:id executing without an engine
error, the handler answers 404 exactly when the matched/affected row count
is zero, and a 404 response carries no user field (for PUT, provided some
updatable field was supplied, so its UPDATE actually runs). -/
theorem c6_user_404_on_zero_rows (tbl : List UserRow) (id : Int) (u : UpdateUserReq) :
    ((getUserAction tbl id).status = 404 ↔ (usersSelect tbl id).length = 0) ∧
    ((getUserAction tbl id).status = 404 → (getUserAction tbl id).user = none) ∧
    ((deleteUserAction tbl id).1.status = 404 ↔ (usersDelete tbl id).2.length = 0) ∧
    ((deleteUserAction tbl id).1.status = 404 → (deleteUserAction tbl id).1.user = none) ∧
    ((truthyStr u.name || truthyStr u.email) = true →
      (((putUserAction tbl id u).1.status = 404 ↔ (usersSelect tbl id).length = 0) ∧
        ((putUserAction tbl id u).1.status = 404 → (putUserAction tbl id u).1.user = none))) := by
  refine ⟨?_, ?_, ?_, ?_, ?_⟩
  · unfold getUserAction
    by_cases h : (usersSelect tbl id).length = 0 <;> simp [h]
  · unfold getUserAction
    by_cases h : (usersSelect tbl id).length = 0 <;> simp [h]
  · unfold deleteUserAction
    by_cases h : (usersDelete tbl id).2.length = 0 <;> simp [h]
  · unfold deleteUserAction
    by_cases h : (usersDelete tbl id).2.length = 0 <;> simp [h]
  · intro hsome
    have hnb : (!truthyStr u.name && !truthyStr u.email) = false := by
      cases hn : truthyStr u.name <;> cases he : truthyStr u.email <;> simp_all
    unfold putUserAction
    rw [hnb]
    simp only [Bool.false_eq_true, if_false]
    have hlen : ((usersUpdate tbl id (if truthyStr u.name then u.name else none)
        (if truthyStr u.email then u.email else none)).2).length = (usersSelect tbl id).length := by
      simp [usersUpdate, usersSelect]
    by_cases h : (usersSelect tbl id).length = 0
    · rw [show (usersUpdate tbl id (if truthyStr u.name then u.name else none)
          (if truthyStr u.email then u.email else none)).2.length = 0 from hlen.trans h]
      simp [h]
    · have : ¬ ((usersUpdate tbl id (if truthyStr u.name then u.name else none)
          (if truthyStr u.email then u.email else none)).2.length = 0) := by
        rw [hlen]; exact h
      simp [this, h]

theorem truthyStr_of_length (s : String) (h : 1 ≤ s.length) :
    truthyStr (some s) = true := by
  by_cases hs : s.isEmpty
  · rw [String.isEmpty_iff] at hs
    subst hs
    simp at h
  · simp [truthyStr, hs]

theorem emailValid_not_empty (s : String) (h : emailValid s = true) :
    s.isEmpty = false := by
  by_cases hs : s.isEmpty
  · rw [String.isEmpty_iff] at hs
    subst hs
    exact absurd h (by decide)
  · simp [hs]

/-- C5: the SET clause of PUT /users/:id is built from exactly the fields
present in the validated input; with no updatable field the handler
answers 400 leaving the table untouched; otherwise the addressed row takes
the supplied fields and keeps the omitted ones, id and created_at are
never written, and all other rows are untouched. -/
theorem c5_put_partial_update (tbl : List UserRow) (id : Int) (u : UpdateUserReq)
    (hn : ∀ s, u.name = some s → 1 ≤ s.length)
    (he : ∀ s, u.email = some s → emailValid s = true) :
    ((putUpdates u).1 =
      (if truthyStr u.name then ["name = $" ++ intStr 1] else []) ++
        (if truthyStr u.email then
          ["email = $" ++ intStr (if truthyStr u.name then 2 else 1)] else [])) ∧
    (u.name = none ∧ u.email = none →
      (putUserAction tbl id u).1.status = 400 ∧ (putUserAction tbl id u).2 = tbl) ∧
    (¬(u.name = none ∧ u.email = none) →
      List.Forall₂ (fun r rr : UserRow =>
        rr.id = r.id ∧ rr.createdAt = r.createdAt ∧
          (¬r.id = id → rr = r) ∧
          (r.id = id → rr.name = u.name.getD r.name ∧ rr.email = u.email.getD r.email))
        tbl (putUserAction tbl id u).2) := by
  have hna : (if truthyStr u.name then u.name else none) = u.name := by
    cases hn2 : u.name with
    | none => simp [truthyStr]
    | some s => simp [truthyStr_of_length s (hn s hn2)]
  have hea : (if truthyStr u.email then u.email else none) = u.email := by
    cases he2 : u.email with
    | none => simp [truthyStr]
    | some s =>
      have : truthyStr (some s) = true := by
        simp [truthyStr, emailValid_not_empty s (he s he2)]
      simp [this]
  refine ⟨?_, ?_, ?_⟩
  · by_cases h1 : truthyStr u.name <;> by_cases h2 : truthyStr u.email <;>
      simp [putUpdates, h1, h2]
  · rintro ⟨hn0, he0⟩
    simp [putUserAction, truthyStr, hn0, he0]
  · intro hsome
    have hor : truthyStr u.name = true ∨ truthyStr u.email = true := by
      cases hn2 : u.name with
      | some s => exact .inl (by simpa [hn2] using truthyStr_of_length s (hn s hn2))
      | none =>
        cases he2 : u.email with
        | some s =>
          refine .inr ?_
          have : truthyStr (some s) = true := by
            simp [truthyStr, emailValid_not_empty s (he s he2)]
          simpa [he2] using this
        | none => exact absurd ⟨hn2, he2⟩ hsome
    have hnb : (!truthyStr u.name && !truthyStr u.email) = false := by
      rcases hor with h | h <;> simp [h]
    have htbl : (putUserAction tbl id u).2 =
        tbl.map (fun r =>
          if r.id == id then
            { r with name := u.name.getD r.name, email := u.email.getD r.email }
          else r) := by
      unfold putUserAction
      rw [hnb]
      simp only [Bool.false_eq_true, if_false, hna, hea]
      unfold usersUpdate
      split <;> rfl
    rw [htbl]
    rw [List.forall₂_map_right_iff]
    refine List.forall₂_same.mpr ?_
    intro r _
    by_cases hid : r.id = id
    · simp [hid]
    · have : (r.id == id) = false := by simp [hid]
      simp [this, hid]

/-- A concrete users table for witnesses. -/
def c5tbl : List UserRow :=
  [{ id := 1, name := "a", email := "a@b", createdAt := 0 },
    { id := 2, name := "b", email := "b@c", createdAt := 5 }]

/-- Witness for C5: updating only the name of user 1. -/
theorem c5_put_partial_update_witness :
    (∀ s, (some "z" : Option String) = some s → 1 ≤ s.length) ∧
    (∀ s, (none : Option String) = some s → emailValid s = true) ∧
    List.Forall₂ (fun r rr : UserRow =>
        rr.id = r.id ∧ rr.createdAt = r.createdAt ∧
          (¬r.id = 1 → rr = r) ∧
          (r.id = 1 → rr.name = (some "z").getD r.name ∧ rr.email = (none : Option String).getD r.email))
      c5tbl (putUserAction c5tbl 1 { name := some "z", email := none }).2 :=
  ⟨fun s hs => by injection hs with h; subst h; decide,
    fun s hs => Option.noConfusion hs,
    (c5_put_partial_update c5tbl 1 { name := some "z", email := none }
        (fun s hs => by injection hs with h; subst h; decide)
        (fun s hs => Option.noConfusion hs)).2.2 (by simp)⟩

theorem natCharsAux_eq (n : Nat) : ∀ acc, natCharsAux n acc = natChars n ++ acc := by
  induction n using Nat.strong_induction_on with
  | _ n ih =>
    intro acc
    by_cases h : n < 10
    · have h1 : natCharsAux n acc = digitChr n :: acc := by
        rw [natCharsAux.eq_def, if_pos h]
      have h2 : natChars n = [digitChr n] := by
        rw [natChars, natCharsAux.eq_def, if_pos h]
      rw [h1, h2]
      simp
    · have h1 : natCharsAux n acc = natCharsAux (n / 10) (digitChr (n % 10) :: acc) := by
        rw [natCharsAux.eq_def, if_neg h]
      have h2 : natChars n = natCharsAux (n / 10) [digitChr (n % 10)] := by
        rw [natChars, natCharsAux.eq_def, if_neg h]
      rw [h1, h2, ih (n / 10) (Nat.div_lt_self (by omega) (by omega)) (digitChr (n % 10) :: acc),
        ih (n / 10) (Nat.div_lt_self (by omega) (by omega)) [digitChr (n % 10)]]
      simp

theorem natChars_cons (n : Nat) (h : ¬ n < 10) :
    natChars n = natChars (n / 10) ++ [digitChr (n % 10)] := by
  rw [natChars, natCharsAux.eq_def, if_neg h, natCharsAux_eq]

theorem digitChr_spec (d : Nat) (h : d < 10) :
    (digitChr d).isDigit = true ∧ digitVal (digitChr d) = d := by
  interval_cases d <;> exact ⟨by decide, by decide⟩

theorem natChars_digits (n : Nat) : ∀ c ∈ natChars n, c.isDigit = true := by
  induction n using Nat.strong_induction_on with
  | _ n ih =>
    by_cases h : n < 10
    · rw [natChars, natCharsAux.eq_def, if_pos h]
      intro c hc
      simp at hc
      subst hc
      exact (digitChr_spec n h).1
    · rw [natChars_cons n h]
      intro c hc
      rcases List.mem_append.mp hc with h1 | h2
      · exact ih (n / 10) (Nat.div_lt_self (by omega) (by omega)) c h1
      · simp at h2
        subst h2
        exact (digitChr_spec (n % 10) (Nat.mod_lt _ (by omega))).1

theorem natChars_ne_nil (n : Nat) : natChars n ≠ [] := by
  by_cases h : n < 10
  · rw [natChars, natCharsAux.eq_def, if_pos h]
    simp
  · rw [natChars_cons n h]
    simp

theorem parseDigitsAux_stop (rest : List Char) (a : Nat)
    (h : ∀ c, rest.head? = some c → c.isDigit = false) :
    parseDigitsAux a rest = (a, rest) := by
  cases rest with
  | nil => rfl
  | cons c cs =>
    have := h c rfl
    simp [parseDigitsAux, this]

theorem parseDigitsAux_natChars (n : Nat) :
    ∀ acc rest, parseDigitsAux acc (natChars n ++ rest)
      = parseDigitsAux (acc * 10 ^ (natChars n).length + n) rest := by
  induction n using Nat.strong_induction_on with
  | _ n ih =>
    intro acc rest
    by_cases h : n < 10
    · have hn : natChars n = [digitChr n] := by
        rw [natChars, natCharsAux.eq_def, if_pos h]
      rw [hn]
      simp only [List.cons_append, List.nil_append, List.length_cons, List.length_nil]
      have h1 : parseDigitsAux acc (digitChr n :: rest)
          = parseDigitsAux (acc * 10 + n) rest := by
        simp [parseDigitsAux, (digitChr_spec n h).1, (digitChr_spec n h).2]
      rw [h1]
      norm_num
    · rw [natChars_cons n h]
      rw [List.append_assoc]
      rw [ih (n / 10) (Nat.div_lt_self (by omega) (by omega))]
      simp only [List.cons_append, List.nil_append]
      have hd10 : n % 10 < 10 := Nat.mod_lt _ (by omega)
      have h1 : parseDigitsAux (acc * 10 ^ (natChars (n / 10)).length + n / 10)
          (digitChr (n % 10) :: rest)
          = parseDigitsAux ((acc * 10 ^ (natChars (n / 10)).length + n / 10) * 10 + n % 10) rest := by
        simp [parseDigitsAux, (digitChr_spec _ hd10).1, (digitChr_spec _ hd10).2]
      rw [h1]
      have harith : (acc * 10 ^ (natChars (n / 10)).length + n / 10) * 10 + n % 10
          = acc * 10 ^ ((natChars (n / 10)).length + 1) + n := by
        have hdm : n / 10 * 10 + n % 10 = n := by omega
        calc (acc * 10 ^ (natChars (n / 10)).length + n / 10) * 10 + n % 10
            = acc * (10 ^ (natChars (n / 10)).length * 10) + (n / 10 * 10 + n % 10) := by ring
          _ = acc * 10 ^ ((natChars (n / 10)).length + 1) + n := by rw [pow_succ, hdm]
      rw [harith]
      congr 1
      simp [natChars_cons n h]

theorem parseDigits_natChars (n : Nat) (rest : List Char)
    (h : ∀ c, rest.head? = some c → c.isDigit = false) :
    parseDigits (natChars n ++ rest) = some (n, rest) := by
  obtain ⟨c, cs, hc⟩ : ∃ c cs, natChars n = c :: cs := by
    cases hnc : natChars n with
    | nil => exact absurd hnc (natChars_ne_nil n)
    | cons c cs => exact ⟨c, cs, rfl⟩
  have hd : c.isDigit = true := natChars_digits n c (by rw [hc]; simp)
  rw [hc]
  simp only [List.cons_append]
  have h1 : parseDigits (c :: (cs ++ rest)) = some (parseDigitsAux 0 (c :: (cs ++ rest))) := by
    simp [parseDigits, hd]
  rw [h1, show c :: (cs ++ rest) = (c :: cs) ++ rest from rfl, ← hc,
    parseDigitsAux_natChars, parseDigitsAux_stop _ _ h]
  simp

theorem strEta (s : String) : (⟨s.data⟩ : String) = s := rfl

theorem parseStrBody_step_esc (acc tail : List Char) :
    parseStrBody acc (qc :: qc :: tail) = parseStrBody (acc ++ [qc]) tail := by
  rw [parseStrBody.eq_def]
  simp

theorem parseStrBody_step_close (acc : List Char) (c2 : Char) (cs2 : List Char)
    (h : ¬ c2 = qc) : parseStrBody acc (qc :: c2 :: cs2) = some (⟨acc⟩, c2 :: cs2) := by
  rw [parseStrBody.eq_def]
  simp [h]

theorem parseStrBody_step_close_nil (acc : List Char) :
    parseStrBody acc [qc] = some (⟨acc⟩, []) := by
  rw [parseStrBody.eq_def]
  simp

theorem parseStrBody_step_plain (acc : List Char) (c : Char) (cs : List Char)
    (h : ¬ c = qc) : parseStrBody acc (c :: cs) = parseStrBody (acc ++ [c]) cs := by
  rw [parseStrBody.eq_def]
  simp [h]

theorem parseStrBody_escQ :
    ∀ (xs acc rest : List Char), rest.head? ≠ some qc →
      parseStrBody acc (escQchars xs ++ qc :: rest) = some (⟨acc ++ xs⟩, rest) := by
  intro xs
  induction xs with
  | nil =>
    intro acc rest hr
    simp only [escQchars, List.nil_append]
    cases rest with
    | nil => simpa using parseStrBody_step_close_nil acc
    | cons c2 cs2 =>
      have hne : ¬ c2 = qc := fun hh => hr (by rw [hh]; rfl)
      simpa using parseStrBody_step_close acc c2 cs2 hne
  | cons x xs ih =>
    intro acc rest hr
    by_cases hx : x = qc
    · subst hx
      rw [show escQchars (qc :: xs) = qc :: qc :: escQchars xs from by simp [escQchars]]
      rw [List.cons_append, List.cons_append, parseStrBody_step_esc, ih (acc ++ [qc]) rest hr]
      simp
    · rw [show escQchars (x :: xs) = x :: escQchars xs from by simp [escQchars, hx]]
      rw [List.cons_append, parseStrBody_step_plain _ _ _ hx, ih (acc ++ [x]) rest hr]
      simp

/-- Whether the remainder after one literal starts with a separator or the
closing parenthesis. -/
def sepStart (cs : List Char) : Bool :=
  match cs with
  | [] => false
  | c :: _ => c = ',' || c = ')'

theorem sepStart_shape (cs : List Char) (h : sepStart cs = true) :
    ∃ c0 rest', cs = c0 :: rest' ∧ (c0 = ',' ∨ c0 = ')') := by
  cases cs with
  | nil => simp [sepStart] at h
  | cons c rest =>
    simp [sepStart] at h
    exact ⟨c, rest, rfl, h⟩

theorem isDigit_excl (c : Char) (h : c.isDigit = true) :
    ¬ c = qc ∧ ¬ c = 'n' ∧ ¬ c = 't' ∧ ¬ c = 'f' ∧ ¬ c = '-' := by
  refine ⟨?_, ?_, ?_, ?_, ?_⟩ <;> intro heq <;> subst heq <;> exact absurd h (by decide)

theorem parseLit_sqlLit (v : Val) (rest : List Char) (h : sepStart rest = true) :
    parseLit ((sqlLit v).data ++ rest) = some (v, rest) := by
  obtain ⟨c0, rest', hrest, hc0⟩ := sepStart_shape rest h
  have hc0qc : rest.head? ≠ some qc := by
    rw [hrest]
    rcases hc0 with h0 | h0 <;> subst h0 <;> simp <;> decide
  have hc0dig : ∀ c, rest.head? = some c → c.isDigit = false := by
    rw [hrest]
    intro c hc
    simp at hc
    subst hc
    rcases hc0 with h0 | h0 <;> subst h0 <;> decide
  cases v with
  | vstr s =>
    have hdata : (sqlLit (Val.vstr s)).data ++ rest
        = qc :: (escQchars s.data ++ (qc :: rest)) := by
      have h0 : (sqlLit (Val.vstr s)).data = [qc] ++ escQchars s.data ++ [qc] := rfl
      rw [h0]
      simp [List.append_assoc]
    rw [hdata, parseLit, if_pos (by decide), parseStrBody_escQ s.data [] rest hc0qc]
    simp [strEta]
  | vint n =>
    by_cases hn : n < 0
    · have hdata : (sqlLit (Val.vint n)).data ++ rest
          = '-' :: (natChars n.natAbs ++ rest) := by
        simp [sqlLit, intStr, if_pos hn]
      rw [hdata, parseLit]
      rw [if_neg (by decide), if_neg (by decide), if_neg (by decide), if_neg (by decide),
        if_pos rfl, parseDigits_natChars n.natAbs rest hc0dig]
      have habs : (-(n.natAbs : Int)) = n := by omega
      simp only [habs]
    · have hdata : (sqlLit (Val.vint n)).data ++ rest = natChars n.toNat ++ rest := by
        simp [sqlLit, intStr, if_neg hn]
      obtain ⟨c1, cs1, hnc⟩ : ∃ c1 cs1, natChars n.toNat = c1 :: cs1 := by
        cases hx : natChars n.toNat with
        | nil => exact absurd hx (natChars_ne_nil _)
        | cons a b => exact ⟨a, b, rfl⟩
      have hd1 : c1.isDigit = true := natChars_digits n.toNat c1 (by rw [hnc]; simp)
      obtain ⟨e1, e2, e3, e4, e5⟩ := isDigit_excl c1 hd1
      rw [hdata, hnc, List.cons_append, parseLit]
      rw [if_neg e1, if_neg e2, if_neg e3, if_neg e4, if_neg e5, if_pos hd1]
      rw [show c1 :: (cs1 ++ rest) = (c1 :: cs1) ++ rest from rfl, ← hnc,
        parseDigits_natChars n.toNat rest hc0dig]
      have habs : ((n.toNat : Int)) = n := by omega
      simp only [habs]
  | vbool b =>
    cases b with
    | true =>
      have hdata : (sqlLit (Val.vbool true)).data ++ rest
          = 't' :: ('r' :: 'u' :: 'e' :: rest) := by
        simp [sqlLit]
      rw [hdata, parseLit, if_neg (by decide), if_neg (by decide), if_pos rfl,
        if_pos (show List.take 3 ('r' :: 'u' :: 'e' :: rest) = ['r', 'u', 'e'] from rfl)]
      rfl
    | false =>
      have hdata : (sqlLit (Val.vbool false)).data ++ rest
          = 'f' :: ('a' :: 'l' :: 's' :: 'e' :: rest) := by
        simp [sqlLit]
      rw [hdata, parseLit, if_neg (by decide), if_neg (by decide), if_neg (by decide),
        if_pos rfl,
        if_pos (show List.take 4 ('a' :: 'l' :: 's' :: 'e' :: rest) = ['a', 'l', 's', 'e'] from rfl)]
      rfl
  | vnull =>
    have hdata : (sqlLit Val.vnull).data ++ rest = 'n' :: ('u' :: 'l' :: 'l' :: rest) := by
      simp [sqlLit]
    rw [hdata, parseLit, if_neg (by decide), if_pos rfl,
      if_pos (show List.take 3 ('u' :: 'l' :: 'l' :: rest) = ['u', 'l', 'l'] from rfl)]
    rfl

theorem sqlLit_len (v : Val) : 1 ≤ (sqlLit v).data.length := by
  cases v with
  | vstr s => simp [sqlLit, escQ]
  | vint n =>
    by_cases hn : n < 0 <;> simp [sqlLit, intStr, hn]
    · exact Nat.pos_of_ne_zero (fun h0 =>
        natChars_ne_nil n.toNat (List.length_eq_zero.mp h0))
  | vbool b => cases b <;> simp [sqlLit]
  | vnull => simp [sqlLit]

theorem joinData_len :
    ∀ vals : List Val, vals.length ≤ (joinSep ", " (vals.map sqlLit)).data.length := by
  intro vals
  induction vals with
  | nil => simp [joinSep]
  | cons v t ih =>
    cases t with
    | nil =>
      simp only [List.map_cons, List.map_nil, joinSep, List.length_cons, List.length_nil]
      have := sqlLit_len v
      omega
    | cons v2 t2 =>
      have hj : joinSep ", " ((v :: v2 :: t2).map sqlLit)
          = sqlLit v ++ ", " ++ joinSep ", " ((v2 :: t2).map sqlLit) := by
        simp [joinSep]
      rw [hj]
      have h1 := sqlLit_len v
      have h2 : ((sqlLit v ++ ", " ++ joinSep ", " ((v2 :: t2).map sqlLit))).data.length
          = (sqlLit v).data.length + 2 + (joinSep ", " ((v2 :: t2).map sqlLit)).data.length := by
        simp [String.data_append]
        omega
      rw [h2]
      simp only [List.length_cons] at ih ⊢
      omega

theorem parseValsFuel_step (f : Nat) (cs : List Char) (hne : cs ≠ []) :
    parseValsFuel (f + 1) cs = (match parseLit cs with
      | none => none
      | some (v, rest) =>
        if rest.take 2 = [',', ' '] then
          match parseValsFuel f (rest.drop 2) with
          | some (vs, r) => some (v :: vs, r)
          | none => none
        else some ([v], rest)) := by
  cases cs with
  | nil => exact absurd rfl hne
  | cons c cs2 => rw [parseValsFuel]

theorem sepStart_of_head (rest : List Char) (h : rest.head? = some ')') :
    sepStart rest = true := by
  cases rest with
  | nil => simp at h
  | cons c cs =>
    simp at h
    subst h
    simp [sepStart]

theorem parseValsFuel_step_some (f : Nat) (cs : List Char) (v : Val) (rest : List Char)
    (hne : cs ≠ []) (hlit : parseLit cs = some (v, rest)) :
    parseValsFuel (f + 1) cs =
      (if rest.take 2 = [',', ' '] then
        match parseValsFuel f (rest.drop 2) with
        | some (vs, r) => some (v :: vs, r)
        | none => none
      else some ([v], rest)) := by
  rw [parseValsFuel_step f cs hne, hlit]

theorem take2_paren_ne (rest2 : List Char) :
    ¬ (List.take 2 (')' :: rest2) = [',', ' ']) := by
  intro h
  have h1 : (')' :: List.take 1 rest2) = [',', ' '] := h
  have h2 : (')' : Char) = ',' := ((List.cons.injEq _ _ _ _).mp h1).1
  exact absurd h2 (by decide)

theorem parseValsFuel_join :
    ∀ (vals : List Val) (fuel : Nat) (rest : List Char), vals ≠ [] →
      rest.head? = some ')' → vals.length ≤ fuel →
      parseValsFuel fuel ((joinSep ", " (vals.map sqlLit)).data ++ rest) = some (vals, rest) := by
  intro vals
  induction vals with
  | nil => intro _ _ h _ _; exact absurd rfl h
  | cons v t ih =>
    intro fuel rest _ hpar hfuel
    obtain ⟨f, rfl⟩ : ∃ f, fuel = f + 1 := ⟨fuel - 1, by simp at hfuel; omega⟩
    have hcs : ((joinSep ", " ((v :: t).map sqlLit)).data ++ rest) ≠ [] := by
      cases rest with
      | nil => simp at hpar
      | cons c cs => simp
    cases t with
    | nil =>
      obtain ⟨rest2, hr2⟩ : ∃ rest2, rest = ')' :: rest2 := by
        cases rest with
        | nil => simp at hpar
        | cons c cs => simp at hpar; subst hpar; exact ⟨cs, rfl⟩
      have hlit : parseLit ((joinSep ", " ([v].map sqlLit)).data ++ rest) = some (v, rest) := by
        rw [show (joinSep ", " ([v].map sqlLit)).data = (sqlLit v).data from rfl]
        exact parseLit_sqlLit v rest (sepStart_of_head rest hpar)
      rw [parseValsFuel_step_some f _ v rest hcs hlit, hr2, if_neg (take2_paren_ne rest2)]
    | cons v2 t2 =>
      have hdata : (joinSep ", " ((v :: v2 :: t2).map sqlLit)).data ++ rest
          = (sqlLit v).data
              ++ (',' :: ' ' :: ((joinSep ", " ((v2 :: t2).map sqlLit)).data ++ rest)) := by
        rw [show joinSep ", " ((v :: v2 :: t2).map sqlLit)
            = sqlLit v ++ ", " ++ joinSep ", " ((v2 :: t2).map sqlLit) from by simp [joinSep]]
        simp [List.append_assoc]
      have hlit : parseLit ((joinSep ", " ((v :: v2 :: t2).map sqlLit)).data ++ rest)
          = some (v, ',' :: ' ' :: ((joinSep ", " ((v2 :: t2).map sqlLit)).data ++ rest)) := by
        rw [hdata]
        exact parseLit_sqlLit v _ (by simp [sepStart])
      rw [parseValsFuel_step_some f _ v _ hcs hlit,
        if_pos (show List.take 2
            (',' :: ' ' :: ((joinSep ", " ((v2 :: t2).map sqlLit)).data ++ rest))
          = [',', ' '] from rfl)]
      rw [show List.drop 2
          (',' :: ' ' :: ((joinSep ", " ((v2 :: t2).map sqlLit)).data ++ rest))
          = (joinSep ", " ((v2 :: t2).map sqlLit)).data ++ rest from rfl]
      rw [ih f rest (by simp) hpar (by simp at hfuel ⊢; omega)]

theorem parseIdentAux_app :
    ∀ (xs acc rest : List Char), (∀ c ∈ xs, isIdentCh c = true) →
      (∀ c, rest.head? = some c → isIdentCh c = false) →
      parseIdentAux acc (xs ++ rest) = (acc ++ xs, rest) := by
  intro xs
  induction xs with
  | nil =>
    intro acc rest _ hr
    cases rest with
    | nil => simp [parseIdentAux]
    | cons c cs => simp [parseIdentAux, hr c rfl]
  | cons x xs ih =>
    intro acc rest hxs hr
    simp only [List.cons_append]
    have hx : isIdentCh x = true := hxs x (by simp)
    rw [show parseIdentAux acc (x :: (xs ++ rest))
        = parseIdentAux (acc ++ [x]) (xs ++ rest) from by simp [parseIdentAux, hx]]
    rw [ih (acc ++ [x]) rest (fun c hc => hxs c (by simp [hc])) hr]
    simp

theorem identOk_parts (name : String) (hid : identOk name = true) :
    name.data ≠ [] ∧ ∀ c ∈ name.data, isIdentCh c = true := by
  simp [identOk, List.all_eq_true] at hid
  exact ⟨fun h0 => by simp [h0] at hid, hid.2⟩

theorem parseIdent_name (name : String) (rest : List Char)
    (hid : identOk name = true)
    (hr : ∀ c, rest.head? = some c → isIdentCh c = false) :
    parseIdent (name.data ++ rest) = some (name, rest) := by
  obtain ⟨hne, hall⟩ := identOk_parts name hid
  rw [parseIdent, parseIdentAux_app name.data [] rest hall hr]
  simp [hne, strEta]

theorem skipToParen_app (xs rest : List Char) (h : ∀ c ∈ xs, ¬ c = ')') :
    skipToParen (xs ++ ')' :: rest) = some rest := by
  induction xs with
  | nil => simp [skipToParen]
  | cons c cs ih =>
    simp only [List.cons_append]
    rw [show skipToParen (c :: (cs ++ ')' :: rest)) = skipToParen (cs ++ ')' :: rest) from by
      simp [skipToParen, h c (by simp)]]
    exact ih (fun c2 hc2 => h c2 (by simp [hc2]))

theorem dropLine_app (xs rest : List Char) (h : ∀ c ∈ xs, ¬ c = '\n') :
    dropLine (xs ++ '\n' :: rest) = rest := by
  induction xs with
  | nil => simp [dropLine]
  | cons c cs ih =>
    simp only [List.cons_append]
    rw [show dropLine (c :: (cs ++ '\n' :: rest)) = dropLine (cs ++ '\n' :: rest) from by
      simp [dropLine, h c (by simp)]]
    exact ih (fun c2 hc2 => h c2 (by simp [hc2]))

theorem joinSep_data_mem (sep : String) :
    ∀ (l : List String) (ch : Char), ch ∈ (joinSep sep l).data →
      (∃ s ∈ l, ch ∈ s.data) ∨ ch ∈ sep.data := by
  intro l
  induction l with
  | nil => intro ch h; simp [joinSep] at h
  | cons s rest ih =>
    intro ch h
    cases rest with
    | nil =>
      simp only [joinSep] at h
      exact .inl ⟨s, by simp, h⟩
    | cons s2 t =>
      rw [show joinSep sep (s :: s2 :: t) = s ++ sep ++ joinSep sep (s2 :: t) from by
        simp [joinSep]] at h
      rw [show (s ++ sep ++ joinSep sep (s2 :: t)).data
          = s.data ++ sep.data ++ (joinSep sep (s2 :: t)).data from rfl] at h
      rcases List.mem_append.mp h with h1 | h2
      · rcases List.mem_append.mp h1 with h3 | h4
        · exact .inl ⟨s, by simp, h3⟩
        · exact .inr h4
      · rcases ih ch h2 with ⟨s3, hs3, hc3⟩ | h5
        · exact .inl ⟨s3, by simp [hs3], hc3⟩
        · exact .inr h5

theorem colDef_chars (c : Column) (hc : colOk c = true) :
    ∀ ch ∈ (colDef c).data, isColCh ch = true := by
  intro ch h
  have hdata : (colDef c).data
      = c.name.data ++ " ".data ++ c.dataType.data
          ++ (if c.notNull then " NOT NULL" else "").data := by
    cases hnn : c.notNull <;> simp [colDef, hnn]
  rw [hdata] at h
  simp [colOk, List.all_eq_true] at hc
  rcases List.mem_append.mp h with h1 | h2
  · rcases List.mem_append.mp h1 with h3 | h4
    · rcases List.mem_append.mp h3 with h5 | h6
      · exact hc.1 ch h5
      · simp at h6
        subst h6
        decide
    · exact hc.2 ch h4
  · cases hnn : c.notNull
    · rw [hnn] at h2
      simp at h2
    · rw [hnn] at h2
      have hall : ∀ ch2 ∈ (" NOT NULL" : String).data, isColCh ch2 = true := by decide
      exact hall ch h2

theorem isColCh_ne_paren (ch : Char) (h : isColCh ch = true) : ¬ ch = ')' := by
  intro he
  subst he
  exact absurd h (by decide)

theorem colsStr_no_paren (cols : List Column) (hcols : ∀ c ∈ cols, colOk c = true) :
    ∀ ch ∈ (joinSep ", " (cols.map colDef)).data, ¬ ch = ')' := by
  intro ch h
  rcases joinSep_data_mem ", " (cols.map colDef) ch h with ⟨s, hs, hcs⟩ | hsep
  · obtain ⟨c, hcmem, rfl⟩ := List.mem_map.mp hs
    exact isColCh_ne_paren ch (colDef_chars c (hcols c hcmem) ch hcs)
  · simp at hsep
    rcases hsep with h1 | h1 <;> subst h1 <;> decide

theorem parseCreate_round (name : String) (cols : List Column) (tail : List Char)
    (hid : identOk name = true) (hcols : ∀ c ∈ cols, colOk c = true) :
    parseCreate (name.data
        ++ (' ' :: '(' :: ((joinSep ", " (cols.map colDef)).data ++ ')' :: ';' :: tail)))
      = some (.create name, tail) := by
  have h1 := parseIdent_name name
    (' ' :: '(' :: ((joinSep ", " (cols.map colDef)).data ++ ')' :: ';' :: tail)) hid
    (fun c hc => by simp at hc; subst hc; decide)
  have h2 : skipToParen ((joinSep ", " (cols.map colDef)).data ++ ')' :: ';' :: tail)
      = some (';' :: tail) := skipToParen_app _ _ (colsStr_no_paren cols hcols)
  simp [parseCreate, h1, h2]

theorem parseInsert_round (name : String) (vals : List Val) (tail : List Char)
    (hid : identOk name = true) (hvals : vals ≠ []) :
    parseInsert (name.data
        ++ (valuesKw ++ ((joinSep ", " (vals.map sqlLit)).data ++ ')' :: ';' :: tail)))
      = some (.insert name vals, tail) := by
  have h1 := parseIdent_name name
    (valuesKw ++ ((joinSep ", " (vals.map sqlLit)).data ++ ')' :: ';' :: tail)) hid
    (fun c hc => by
      rw [show (valuesKw ++ ((joinSep ", " (vals.map sqlLit)).data ++ ')' :: ';' :: tail))
          = ' ' :: ("VALUES (".data ++ ((joinSep ", " (vals.map sqlLit)).data ++ ')' :: ';' :: tail))
        from rfl] at hc
      simp at hc
      subst hc
      decide)
  have htake : (valuesKw ++ ((joinSep ", " (vals.map sqlLit)).data ++ ')' :: ';' :: tail)).take 9
      = valuesKw := by
    rw [show (9 : Nat) = valuesKw.length from rfl, List.take_left]
  have hdrop : (valuesKw ++ ((joinSep ", " (vals.map sqlLit)).data ++ ')' :: ';' :: tail)).drop 9
      = (joinSep ", " (vals.map sqlLit)).data ++ ')' :: ';' :: tail := by
    rw [show (9 : Nat) = valuesKw.length from rfl, List.drop_left]
  have h3 : parseValsCore ((joinSep ", " (vals.map sqlLit)).data ++ ')' :: ';' :: tail)
      = some (vals, ')' :: ';' :: tail) := by
    rw [parseValsCore]
    refine parseValsFuel_join vals _ _ hvals (by simp) ?_
    have := joinData_len vals
    simp only [List.length_append, List.length_cons]
    omega
  simp [parseInsert, h1, htake, hdrop, h3]

theorem parseStmtsFuel_cons (f0 : Nat) (c : Char) (cs2 : List Char) :
    parseStmtsFuel (f0 + 1) (c :: cs2) =
      (if c = '\n' ∨ c = ' ' then parseStmtsFuel f0 cs2
      else if c = '-' then
        match cs2 with
        | '-' :: cs3 => parseStmtsFuel f0 (dropLine cs3)
        | _ => none
      else if (c :: cs2).take 13 = createKw then
        match parseCreate ((c :: cs2).drop 13) with
        | some (st, rest) =>
          match parseStmtsFuel f0 rest with
          | some sts => some (st :: sts)
          | none => none
        | none => none
      else if (c :: cs2).take 12 = insertKw then
        match parseInsert ((c :: cs2).drop 12) with
        | some (st, rest) =>
          match parseStmtsFuel f0 rest with
          | some sts => some (st :: sts)
          | none => none
        | none => none
      else none) := rfl

/-- The dump prefix cs parses to sts whatever sufficient fuel is given. -/
def PS (cs : List Char) (sts : List Stmt) : Prop :=
  ∀ f, cs.length ≤ f → parseStmtsFuel f cs = some sts

theorem ps_nil : PS [] [] := by
  intro f _
  cases f <;> rfl

theorem ps_ws (w : Char) (hw : w = '\n' ∨ w = ' ') (cs : List Char) (sts : List Stmt)
    (h : PS cs sts) : PS (w :: cs) sts := by
  intro f hf
  obtain ⟨f0, rfl⟩ : ∃ f0, f = f0 + 1 := ⟨f - 1, by simp at hf; omega⟩
  rw [parseStmtsFuel_cons, if_pos hw]
  exact h f0 (by simp at hf; omega)

theorem ps_comment (xs cs : List Char) (sts : List Stmt)
    (hxs : ∀ c ∈ xs, ¬ c = '\n') (h : PS cs sts) :
    PS ('-' :: '-' :: (xs ++ '\n' :: cs)) sts := by
  intro f hf
  obtain ⟨f0, rfl⟩ : ∃ f0, f = f0 + 1 := ⟨f - 1, by simp at hf; omega⟩
  rw [parseStmtsFuel_cons, if_neg (by decide), if_pos rfl]
  change parseStmtsFuel f0 (dropLine (xs ++ '\n' :: cs)) = some sts
  rw [dropLine_app xs cs hxs]
  refine h f0 ?_
  simp only [List.length_cons, List.length_append] at hf ⊢
  omega

theorem ps_create (name : String) (cols : List Column) (cs : List Char) (sts : List Stmt)
    (hid : identOk name = true) (hcols : ∀ c ∈ cols, colOk c = true)
    (h : PS cs sts) :
    PS (("CREATE TABLE " ++ name ++ " (" ++ joinSep ", " (cols.map colDef) ++ ");").data ++ cs)
      (.create name :: sts) := by
  have hdata : ("CREATE TABLE " ++ name ++ " (" ++ joinSep ", " (cols.map colDef) ++ ");").data ++ cs
      = 'C' :: ("REATE TABLE ".data ++ (name.data
          ++ (' ' :: '(' :: ((joinSep ", " (cols.map colDef)).data ++ ')' :: ';' :: cs)))) := by
    show (((("CREATE TABLE ".data ++ name.data) ++ " (".data)
        ++ (joinSep ", " (cols.map colDef)).data) ++ ");".data) ++ cs = _
    rw [show ("CREATE TABLE ".data : List Char) = 'C' :: "REATE TABLE ".data from rfl,
      show (" (".data : List Char) = [' ', '('] from rfl,
      show (");".data : List Char) = [')', ';'] from rfl]
    simp [List.append_assoc]
  rw [hdata]
  intro f hf
  obtain ⟨f0, rfl⟩ : ∃ f0, f = f0 + 1 := ⟨f - 1, by simp at hf; omega⟩
  rw [parseStmtsFuel_cons, if_neg (by decide), if_neg (by decide)]
  have htake : ('C' :: ("REATE TABLE ".data ++ (name.data
      ++ (' ' :: '(' :: ((joinSep ", " (cols.map colDef)).data ++ ')' :: ';' :: cs))))).take 13
      = createKw := by
    show 'C' :: ("REATE TABLE ".data ++ (name.data
      ++ (' ' :: '(' :: ((joinSep ", " (cols.map colDef)).data ++ ')' :: ';' :: cs)))).take 12
      = createKw
    rw [show (12 : Nat) = ("REATE TABLE ".data).length from rfl, List.take_left]
    rfl
  rw [if_pos htake]
  have hdrop : ('C' :: ("REATE TABLE ".data ++ (name.data
      ++ (' ' :: '(' :: ((joinSep ", " (cols.map colDef)).data ++ ')' :: ';' :: cs))))).drop 13
      = name.data ++ (' ' :: '(' :: ((joinSep ", " (cols.map colDef)).data ++ ')' :: ';' :: cs)) := by
    show ("REATE TABLE ".data ++ (name.data
      ++ (' ' :: '(' :: ((joinSep ", " (cols.map colDef)).data ++ ')' :: ';' :: cs)))).drop 12 = _
    rw [show (12 : Nat) = ("REATE TABLE ".data).length from rfl, List.drop_left]
  rw [hdrop, parseCreate_round name cols cs hid hcols]
  change (match parseStmtsFuel f0 cs with
    | some sts2 => some (Stmt.create name :: sts2)
    | none => none) = some (Stmt.create name :: sts)
  rw [h f0 (by simp only [List.length_cons, List.length_append] at hf; omega)]

theorem ps_insert (name : String) (vals : List Val) (cs : List Char) (sts : List Stmt)
    (hid : identOk name = true) (hvals : vals ≠ []) (h : PS cs sts) :
    PS ((rowInsert name vals).data ++ cs) (.insert name vals :: sts) := by
  have hdata : (rowInsert name vals).data ++ cs
      = 'I' :: ("NSERT INTO ".data ++ (name.data
          ++ (valuesKw ++ ((joinSep ", " (vals.map sqlLit)).data ++ ')' :: ';' :: '\n' :: cs)))) := by
    show (((("INSERT INTO ".data ++ name.data) ++ " VALUES (".data)
        ++ (joinSep ", " (vals.map sqlLit)).data) ++ ");\n".data) ++ cs = _
    rw [show ("INSERT INTO ".data : List Char) = 'I' :: "NSERT INTO ".data from rfl,
      show (");\n".data : List Char) = [')', ';', '\n'] from rfl]
    simp [List.append_assoc, valuesKw]
  rw [hdata]
  intro f hf
  obtain ⟨f0, rfl⟩ : ∃ f0, f = f0 + 1 := ⟨f - 1, by simp at hf; omega⟩
  rw [parseStmtsFuel_cons, if_neg (by decide), if_neg (by decide)]
  have htkne : ¬ (('I' :: ("NSERT INTO ".data ++ (name.data
      ++ (valuesKw ++ ((joinSep ", " (vals.map sqlLit)).data ++ ')' :: ';' :: '\n' :: cs))))).take 13
      = createKw) := by
    intro hcontra
    have h1 : 'I' :: ("NSERT INTO ".data ++ (name.data
        ++ (valuesKw ++ ((joinSep ", " (vals.map sqlLit)).data ++ ')' :: ';' :: '\n' :: cs)))).take 12
        = createKw := hcontra
    rw [show (createKw : List Char) = 'C' :: "REATE TABLE ".data from rfl] at h1
    exact absurd ((List.cons.injEq _ _ _ _).mp h1).1 (by decide)
  rw [if_neg htkne]
  have htake : ('I' :: ("NSERT INTO ".data ++ (name.data
      ++ (valuesKw ++ ((joinSep ", " (vals.map sqlLit)).data ++ ')' :: ';' :: '\n' :: cs))))).take 12
      = insertKw := by
    show 'I' :: ("NSERT INTO ".data ++ (name.data
      ++ (valuesKw ++ ((joinSep ", " (vals.map sqlLit)).data ++ ')' :: ';' :: '\n' :: cs)))).take 11
      = insertKw
    rw [show (11 : Nat) = ("NSERT INTO ".data).length from rfl, List.take_left]
    rfl
  rw [if_pos htake]
  have hdrop : ('I' :: ("NSERT INTO ".data ++ (name.data
      ++ (valuesKw ++ ((joinSep ", " (vals.map sqlLit)).data ++ ')' :: ';' :: '\n' :: cs))))).drop 12
      = name.data ++ (valuesKw ++ ((joinSep ", " (vals.map sqlLit)).data ++ ')' :: ';' :: '\n' :: cs)) := by
    show ("NSERT INTO ".data ++ (name.data
      ++ (valuesKw ++ ((joinSep ", " (vals.map sqlLit)).data ++ ')' :: ';' :: '\n' :: cs)))).drop 11 = _
    rw [show (11 : Nat) = ("NSERT INTO ".data).length from rfl, List.drop_left]
  rw [hdrop, parseInsert_round name vals ('\n' :: cs) hid hvals]
  change (match parseStmtsFuel f0 ('\n' :: cs) with
    | some sts2 => some (Stmt.insert name vals :: sts2)
    | none => none) = some (Stmt.insert name vals :: sts)
  rw [ps_ws '\n' (Or.inl rfl) cs sts h f0
    (by simp only [List.length_cons, List.length_append] at hf ⊢; omega)]

theorem ps_inserts (name : String) (hid : identOk name = true) :
    ∀ (rows : List (List Val)) (cs : List Char) (sts : List Stmt),
      (∀ row ∈ rows, row ≠ []) → PS cs sts →
      PS ((strJoin (rows.map (rowInsert name))).data ++ cs)
        (rows.map (Stmt.insert name) ++ sts) := by
  intro rows
  induction rows with
  | nil =>
    intro cs sts _ h
    simpa [strJoin, show (("" : String).data : List Char) = [] from rfl] using h
  | cons r t ih =>
    intro cs sts hr h
    have hjd : (strJoin ((r :: t).map (rowInsert name))).data ++ cs
        = (rowInsert name r).data ++ ((strJoin (t.map (rowInsert name))).data ++ cs) := by
      show ((rowInsert name r ++ strJoin (t.map (rowInsert name))).data) ++ cs = _
      simp [List.append_assoc]
    rw [hjd]
    have := ps_insert name r _ _ hid (hr r (by simp))
      (ih cs sts (fun row hrow => hr row (by simp [hrow])) h)
    simpa using this

theorem ps_dataSection (name : String) (rows : List (List Val)) (cs : List Char) (sts : List Stmt)
    (hid : identOk name = true) (hr : ∀ row ∈ rows, row ≠ []) (h : PS cs sts) :
    PS ((dataSection name rows).data ++ cs) (rows.map (Stmt.insert name) ++ sts) := by
  cases rows with
  | nil =>
    simpa [dataSection, show (("" : String).data : List Char) = [] from rfl] using h
  | cons r t =>
    have hd : (dataSection name (r :: t)).data ++ cs
        = (strJoin ((r :: t).map (rowInsert name))).data ++ ('\n' :: cs) := by
      show ((strJoin ((r :: t).map (rowInsert name))).data ++ "\n".data) ++ cs = _
      rw [show (("\n" : String).data : List Char) = ['\n'] from rfl]
      simp [List.append_assoc]
    rw [hd]
    exact ps_inserts name hid (r :: t) ('\n' :: cs) sts hr (ps_ws '\n' (.inl rfl) cs sts h)

theorem ps_table (t : Table) (cs : List Char) (sts : List Stmt)
    (hwf : wfTable t) (h : PS cs sts) :
    PS ((tableDump t).data ++ cs) (stmtsOfTable t ++ sts) := by
  obtain ⟨hid, hcne, hcols, hrowlen⟩ := hwf
  have hrne : ∀ row ∈ t.rows, row ≠ [] := by
    intro row hrow h0
    have hlen := hrowlen row hrow
    rw [h0] at hlen
    simp at hlen
    exact hcne (List.length_eq_zero.mp hlen.symm)
  have hcreate : createStmtFor t
      = "CREATE TABLE " ++ t.name ++ " (" ++ joinSep ", " (t.cols.map colDef) ++ ");" := by
    rw [createStmtFor, if_neg (by simp [hcne])]
  have hd : (tableDump t).data ++ cs
      = ("CREATE TABLE " ++ t.name ++ " (" ++ joinSep ", " (t.cols.map colDef) ++ ");").data
          ++ ('\n' :: '\n' :: ((dataSection t.name t.rows).data ++ cs)) := by
    rw [tableDump, hcreate]
    show ((("CREATE TABLE " ++ t.name ++ " (" ++ joinSep ", " (t.cols.map colDef) ++ ");").data
        ++ "\n\n".data) ++ (dataSection t.name t.rows).data) ++ cs = _
    rw [show (("\n\n" : String).data : List Char) = ['\n', '\n'] from rfl]
    simp [List.append_assoc]
  rw [hd]
  show PS _ (Stmt.create t.name :: (t.rows.map (Stmt.insert t.name) ++ sts))
  refine ps_create t.name t.cols _ _ hid hcols ?_
  refine ps_ws '\n' (.inl rfl) _ _ (ps_ws '\n' (.inl rfl) _ _ ?_)
  exact ps_dataSection t.name t.rows cs sts hid hrne h

theorem ps_store : ∀ (store : List Table) (cs : List Char) (sts : List Stmt),
    (∀ t ∈ store, wfTable t) → PS cs sts →
    PS ((strJoin (store.map tableDump)).data ++ cs) (stmtsOf store ++ sts) := by
  intro store
  induction store with
  | nil =>
    intro cs sts _ h
    simpa [stmtsOf, strJoin, show (("" : String).data : List Char) = [] from rfl] using h
  | cons t rest ih =>
    intro cs sts hwf h
    have hd : (strJoin ((t :: rest).map tableDump)).data ++ cs
        = (tableDump t).data ++ ((strJoin (rest.map tableDump)).data ++ cs) := by
      show ((tableDump t ++ strJoin (rest.map tableDump)).data) ++ cs = _
      simp [List.append_assoc]
    rw [hd]
    have := ps_table t _ _ (hwf t (by simp))
      (ih cs sts (fun t2 ht2 => hwf t2 (by simp [ht2])) h)
    simpa [stmtsOf, List.append_assoc] using this

theorem parseStmts_exportDump (store : List Table) (ts : String)
    (hwf : wfStore store) (hts : tsOk ts = true) :
    parseStmts (exportDump store ts).data = some (stmtsOf store) := by
  have hbody : PS ((strJoin (store.map tableDump)).data ++ []) (stmtsOf store ++ []) :=
    ps_store store [] [] hwf.2 ps_nil
  have hbody2 : PS (strJoin (store.map tableDump)).data (stmtsOf store) := by
    simpa using hbody
  have hd : (exportDump store ts).data
      = '-' :: '-' :: ((" PGlite Database Export".data)
          ++ '\n' :: ('-' :: '-' :: ((" Generated: ".data ++ ts.data)
            ++ '\n' :: ('\n' :: (strJoin (store.map tableDump)).data)))) := by
    show (("-- PGlite Database Export\n" ++ ("-- Generated: " ++ ts ++ "\n\n")).data
        ++ (strJoin (store.map tableDump)).data) = _
    rw [show (("-- PGlite Database Export\n" ++ ("-- Generated: " ++ ts ++ "\n\n")).data : List Char)
        = ('-' :: '-' :: " PGlite Database Export".data) ++ ['\n']
          ++ (('-' :: '-' :: " Generated: ".data) ++ ts.data ++ ['\n', '\n']) from rfl]
    simp [List.append_assoc]
  have hfinal : PS (exportDump store ts).data (stmtsOf store) := by
    rw [hd]
    refine ps_comment _ _ _ (by decide) ?_
    refine ps_comment _ _ _ ?_ ?_
    · intro c hc
      rcases List.mem_append.mp hc with h1 | h2
      · have hconc : ∀ c2 ∈ (" Generated: ".data : List Char), ¬ c2 = '\n' := by decide
        exact hconc c h1
      · simp [tsOk, List.all_eq_true] at hts
        intro he
        subst he
        have := hts '\n' h2
        simp at this
    · exact ps_ws '\n' (.inl rfl) _ _ hbody2
  rw [parseStmts]
  exact hfinal _ le_rfl

theorem map_id_of_mem {α : Type} (l : List α) (f : α → α) (h : ∀ a ∈ l, f a = a) :
    l.map f = l := by
  induction l with
  | nil => rfl
  | cons x xs ih => simp [h x (by simp), ih (fun a ha => h a (by simp [ha]))]

theorem applyStmts_inserts (name : String) :
    ∀ (rows : List (List Val)) (st : Store) (acc : List (List Val)),
      (∀ t ∈ st, ¬ t.name = name) →
      applyStmts (st ++ [{ name := name, rows := acc }]) (rows.map (Stmt.insert name))
        = .ok (st ++ [{ name := name, rows := acc ++ rows }]) := by
  intro rows
  induction rows with
  | nil => intro st acc _; simp [applyStmts]
  | cons r t ih =>
    intro st acc hst
    rw [List.map_cons, applyStmts]
    have hht : hasTable (st ++ [{ name := name, rows := acc }]) name = true := by
      simp [hasTable]
    rw [show applyStmt (st ++ [({ name := name, rows := acc } : DbTable)]) (Stmt.insert name r)
        = .ok ((st ++ [({ name := name, rows := acc } : DbTable)]).map
            (fun t : DbTable =>
              if t.name == name then { t with rows := t.rows ++ [r] } else t)) from by
      rw [applyStmt, if_pos hht]]
    have hmap : (st ++ [({ name := name, rows := acc } : DbTable)]).map
        (fun t : DbTable => if t.name == name then { t with rows := t.rows ++ [r] } else t)
        = st ++ [({ name := name, rows := acc ++ [r] } : DbTable)] := by
      rw [List.map_append]
      congr 1
      · exact map_id_of_mem st _ (fun tb htb => by simp [hst tb htb])
      · simp
    rw [hmap]
    have := ih st (acc ++ [r]) hst
    simpa using this

theorem applyStmts_table (t2 : Table) (st : Store)
    (hnew : ∀ tb ∈ st, ¬ tb.name = t2.name) :
    applyStmts st (stmtsOfTable t2) = .ok (st ++ [{ name := t2.name, rows := t2.rows }]) := by
  rw [stmtsOfTable, applyStmts]
  have hht : hasTable st t2.name = false := by
    simp [hasTable]
    exact hnew
  rw [show applyStmt st (Stmt.create t2.name) = .ok (st ++ [{ name := t2.name, rows := [] }]) from by
    rw [applyStmt, if_neg (by simp [hht])]]
  have := applyStmts_inserts t2.name t2.rows st [] hnew
  simpa using this

theorem applyStmts_app_ok (l2 : List Stmt) :
    ∀ (l1 : List Stmt) (st st2 : Store), applyStmts st l1 = .ok st2 →
      applyStmts st (l1 ++ l2) = applyStmts st2 l2 := by
  intro l1
  induction l1 with
  | nil =>
    intro st st2 h
    simp [applyStmts] at h
    subst h
    simp
  | cons s t ih =>
    intro st st2 h
    rw [applyStmts] at h
    rw [List.cons_append, applyStmts]
    match happ : applyStmt st s with
    | .error e => rw [happ] at h; simp at h
    | .ok stm =>
      rw [happ] at h
      replace h : applyStmts stm t = .ok st2 := h
      change applyStmts stm (t ++ l2) = applyStmts st2 l2
      exact ih stm st2 h

theorem applyStmts_stmtsOf :
    ∀ (store : List Table) (st : Store),
      ((st.map DbTable.name) ++ (store.map Table.name)).Nodup →
      applyStmts st (stmtsOf store) = .ok (st ++ storeOf store) := by
  intro store
  induction store with
  | nil => intro st _; simp [stmtsOf, applyStmts, storeOf]
  | cons t rest ih =>
    intro st hnd
    rw [show stmtsOf (t :: rest) = stmtsOfTable t ++ stmtsOf rest from by simp [stmtsOf]]
    have hnew : ∀ tb ∈ st, ¬ tb.name = t.name := by
      intro tb htb he
      have hmem1 : t.name ∈ st.map DbTable.name := List.mem_map.mpr ⟨tb, htb, he⟩
      have hmem2 : t.name ∈ (t :: rest).map Table.name := by simp
      rcases List.nodup_append.mp hnd with ⟨_, _, hdisj⟩
      exact hdisj hmem1 hmem2
    rw [applyStmts_app_ok (stmtsOf rest) (stmtsOfTable t) st
      (st ++ [{ name := t.name, rows := t.rows }]) (applyStmts_table t st hnew)]
    have hnd2 : (((st ++ [({ name := t.name, rows := t.rows } : DbTable)]).map DbTable.name)
        ++ rest.map Table.name).Nodup := by
      simpa [List.append_assoc] using hnd
    rw [ih (st ++ [({ name := t.name, rows := t.rows } : DbTable)]) hnd2]
    simp [storeOf]

theorem selectStar_storeOf :
    ∀ (store : List Table) (t : Table), t ∈ store →
      (store.map Table.name).Nodup → selectStar (storeOf store) t.name = t.rows := by
  intro store
  induction store with
  | nil => intro t ht; simp at ht
  | cons t0 rest ih =>
    intro t ht hnd
    rcases List.mem_cons.mp ht with rfl | hmem
    · simp [selectStar, storeOf, List.find?]
    · have hne : (({ name := t0.name, rows := t0.rows } : DbTable).name == t.name) = false := by
        simp only [beq_eq_false_iff_ne, ne_eq]
        intro he
        simp [List.nodup_cons] at hnd
        exact hnd.1 t hmem he.symm
      rw [show selectStar (storeOf (t0 :: rest)) t.name = selectStar (storeOf rest) t.name from by
        simp only [storeOf, List.map_cons, selectStar]
        rw [List.find?_cons_of_neg _ (by rw [hne]; simp)]]
      exact ih t hmem (by simp [List.nodup_cons] at hnd; exact hnd.2)

/-- C4: for every store of simple tables (plain identifier names, nonempty
catalog-shaped columns, rows matching the column count, distinct table
names), the SQL text GET /export produces, fed through POST /import into a
fresh empty store, replays without error to exactly the exported store, and
for each table t the multiset of rows SELECT * FROM t returns afterwards
equals the multiset of t's rows before the export. -/
theorem c4_export_import_roundtrip (store : List Table) (ts : String)
    (hwf : wfStore store) (hts : tsOk ts = true) :
    execBlob (exportDump store ts) [] = .ok (storeOf store) ∧
    ∀ t ∈ store,
      (↑(selectStar (storeOf store) t.name) : Multiset (List Val))
        = (↑t.rows : Multiset (List Val)) := by
  have hparse := parseStmts_exportDump store ts hwf hts
  constructor
  · rw [execBlob, hparse]
    change applyStmts [] (stmtsOf store) = .ok (storeOf store)
    have := applyStmts_stmtsOf store [] (by simpa using hwf.1)
    simpa using this
  · intro t ht
    rw [selectStar_storeOf store t ht hwf.1]

def c4store : List Table :=
  [ { name := "users",
      cols := [{ name := "id", dataType := "integer", notNull := true },
               { name := "name", dataType := "text", notNull := false }],
      rows := [[Val.vint 1, Val.vstr "it's"], [Val.vint (-2), Val.vnull]] },
    { name := "flags",
      cols := [{ name := "ok", dataType := "boolean", notNull := false }],
      rows := [[Val.vbool true]] },
    { name := "empty_t",
      cols := [{ name := "x", dataType := "text", notNull := false }],
      rows := [] } ]

/-- Witness for C4: a concrete three-table store (with a quote inside a
string, a negative integer, a null, a boolean, and an empty table) satisfies
the hypotheses, and the round trip holds for it. -/
theorem c4_export_import_roundtrip_witness :
    wfStore c4store ∧ tsOk "2024-01-01T00:00:00.000Z" = true ∧
    (execBlob (exportDump c4store "2024-01-01T00:00:00.000Z") []
        = .ok (storeOf c4store) ∧
      ∀ t ∈ c4store,
        (↑(selectStar (storeOf c4store) t.name) : Multiset (List Val))
          = (↑t.rows : Multiset (List Val))) :=
  ⟨by unfold wfStore wfTable; decide, by decide,
    c4_export_import_roundtrip c4store "2024-01-01T00:00:00.000Z"
      (by unfold wfStore wfTable; decide) (by decide)⟩

theorem escQchars_flatMap : ∀ cs : List Char,
    escQchars cs = cs.flatMap (fun ch => if ch = qc then [qc, qc] else [ch]) := by
  intro cs
  induction cs with
  | nil => rfl
  | cons c t ih =>
    rw [escQchars]
    by_cases hc : c = qc
    · simp [hc, ih]
    · simp [hc, ih]

/-- C7: the data block the export emits for a table is exactly one INSERT
statement per row (parsing the block recovers one Stmt.insert per row with
the very same values, in order), the INSERT text splices the values joined
as SQL literals, a string literal is the string wrapped in single quotes
with every embedded single quote doubled, and integers, booleans and null
are emitted via their default textual forms. -/
theorem c7_export_insert_serialization (name : String) (rows : List (List Val))
    (hid : identOk name = true) (hr : ∀ row ∈ rows, row ≠ []) :
    parseStmts (dataSection name rows).data = some (rows.map (Stmt.insert name)) ∧
    (∀ vals, rowInsert name vals
        = "INSERT INTO " ++ name ++ " VALUES ("
          ++ joinSep ", " (vals.map sqlLit) ++ ");\n") ∧
    (∀ s, sqlLit (.vstr s) = "'" ++ escQ s ++ "'") ∧
    (∀ s, (escQ s).data
        = s.data.flatMap (fun ch => if ch = qc then [qc, qc] else [ch])) ∧
    (∀ n, sqlLit (.vint n) = intStr n) ∧
    (∀ b, sqlLit (.vbool b) = if b then "true" else "false") ∧
    sqlLit .vnull = "null" := by
  refine ⟨?_, fun _ => rfl, fun _ => rfl, ?_, fun _ => rfl, fun b => rfl, rfl⟩
  · have hps := ps_dataSection name rows [] [] hid hr ps_nil
    have h2 := hps ((dataSection name rows).data ++ []).length (le_refl _)
    rw [parseStmts]
    simpa using h2
  · intro s
    show escQchars s.data = _
    exact escQchars_flatMap s.data

/-- Witness for C7: a concrete table name and a row holding an integer and
a quoted string satisfy the hypotheses, and the emitted block parses back to
exactly that one INSERT. -/
theorem c7_export_insert_serialization_witness :
    identOk "users" = true ∧
    (∀ row ∈ [[Val.vint 5, Val.vstr "a'b"]], row ≠ ([] : List Val)) ∧
    parseStmts (dataSection "users" [[Val.vint 5, Val.vstr "a'b"]]).data
      = some ([[Val.vint 5, Val.vstr "a'b"]].map (Stmt.insert "users")) :=
  ⟨by decide, by decide,
    (c7_export_insert_serialization "users" [[Val.vint 5, Val.vstr "a'b"]]
      (by decide) (by decide)).1⟩
